import Mathlib

/-!
Verification development for the cconv agent-invocation engine.

The TypeScript sources are shallowly embedded: strings stay strings,
JavaScript `JSON.parse` is modelled by an executable JSON parser over a
`Json` value type (numbers are modelled as integers, which covers every
numeric field the engine handles: line numbers, columns, confidence),
regex-based scraping strategies are modelled by executable scanning
functions with the same match semantics on the inputs the engine sees,
and thrown JavaScript errors become `Except` error values whose
constructors mirror the ad-hoc flags (`isExecutionError`, `isTruncated`,
`validationError`, bare `response`) the code attaches.
-/

/-- Model of a JavaScript JSON value as produced by `JSON.parse`.
Numbers are modelled as integers. -/
inductive Json where
  | null : Json
  | bool (b : Bool) : Json
  | num (n : Int) : Json
  | str (s : String) : Json
  | arr (elems : List Json) : Json
  | obj (fields : List (String × Json)) : Json

/-- JavaScript truthiness of a JSON value (`if (x)`): `null`, `false`, `0`
and the empty string are falsy; every array and object is truthy. -/
def Json.truthy : Json → Bool
  | .null => false
  | .bool b => b
  | .num n => n != 0
  | .str s => s != ""
  | .arr _ => true
  | .obj _ => true

/-- Property access `obj.key` on a parsed JSON value: on objects the last
binding wins (as `JSON.parse` keeps the last duplicate key); on any other
value the access yields `undefined`, modelled as `none`. -/
def Json.getField : Json → String → Option Json
  | .obj fs, k => fs.foldl (fun acc p => if p.fst == k then some p.snd else acc) none
  | _, _ => none

/-- Error classification of `JSON.parse`: V8 reports "Unexpected end of JSON
input" when the text ends in the middle of a value (`unexpectedEnd` here);
every other syntax error is `invalid`. -/
inductive JsonPErr where
  | unexpectedEnd : JsonPErr
  | invalid : JsonPErr
deriving DecidableEq, Repr

/-- JSON whitespace characters. -/
def isJsonWs (c : Char) : Bool :=
  c == ' ' || c == '\t' || c == '\n' || c == '\r'

/-- Drop leading JSON whitespace. -/
def skipWsL : List Char → List Char
  | [] => []
  | c :: cs => if isJsonWs c then skipWsL cs else c :: cs

/-- Hex digit value, for `\u` escapes. -/
def hexVal (c : Char) : Option Nat :=
  let n := c.toNat
  if 48 ≤ n && n ≤ 57 then some (n - 48)
  else if 97 ≤ n && n ≤ 102 then some (n - 87)
  else if 65 ≤ n && n ≤ 70 then some (n - 55)
  else none

/-- Scanner state of the JSON string-body parser: plain characters, a
pending escape, or the remaining digits and accumulator of a `\u`
escape. -/
inductive StrPState where
  | normal : StrPState
  | esc : StrPState
  | hex (remaining : Nat) (acc : Nat) : StrPState

/-- Parse the body of a JSON string after the opening quote, one
character per step; returns the decoded characters and the remaining
input after the closing quote.  Running out of input anywhere inside the
body is an unexpected end. -/
def parseJsonStrS : StrPState → List Char → Except JsonPErr (List Char × List Char)
  | _, [] => .error .unexpectedEnd
  | .normal, c :: cs =>
    if c == '"' then .ok ([], cs)
    else if c == '\\' then parseJsonStrS .esc cs
    else (parseJsonStrS .normal cs).map (fun r => (c :: r.1, r.2))
  | .esc, e :: cs =>
    if e == '"' || e == '\\' || e == '/' then
      (parseJsonStrS .normal cs).map (fun r => (e :: r.1, r.2))
    else if e == 'b' then (parseJsonStrS .normal cs).map (fun r => (Char.ofNat 8 :: r.1, r.2))
    else if e == 'f' then (parseJsonStrS .normal cs).map (fun r => (Char.ofNat 12 :: r.1, r.2))
    else if e == 'n' then (parseJsonStrS .normal cs).map (fun r => ('\n' :: r.1, r.2))
    else if e == 'r' then (parseJsonStrS .normal cs).map (fun r => ('\r' :: r.1, r.2))
    else if e == 't' then (parseJsonStrS .normal cs).map (fun r => ('\t' :: r.1, r.2))
    else if e == 'u' then parseJsonStrS (.hex 4 0) cs
    else .error .invalid
  | .hex (k + 1) acc, c :: cs =>
    match hexVal c with
    | some h =>
      if k == 0 then
        (parseJsonStrS .normal cs).map (fun r => (Char.ofNat (acc * 16 + h) :: r.1, r.2))
      else parseJsonStrS (.hex k (acc * 16 + h)) cs
    | none => .error .invalid
  | .hex 0 _, _ :: _ => .error .invalid

/-- The string-body parser in its initial state. -/
def parseJsonStr (cs : List Char) : Except JsonPErr (List Char × List Char) :=
  parseJsonStrS .normal cs

/-- Collect a run of decimal digits. -/
def takeDigits : List Char → (List Char × List Char)
  | [] => ([], [])
  | c :: cs =>
    if '0' ≤ c && c ≤ '9' then
      let r := takeDigits cs
      (c :: r.1, r.2)
    else ([], c :: cs)

/-- Digits to a natural number. -/
def digitsToNat (ds : List Char) : Nat :=
  ds.foldl (fun acc c => acc * 10 + (c.toNat - '0'.toNat)) 0

/-- Parse a JSON number (integer part only: the engine only ever consumes
integer-valued fields, and fractional or exponent syntax is rejected as
`invalid` in this model). Leading zeros are rejected as in strict JSON. -/
def parseJsonNum : List Char → Except JsonPErr (Int × List Char)
  | [] => .error .unexpectedEnd
  | c :: cs =>
    let (neg, rest) : Bool × List Char :=
      if c == '-' then (true, cs) else (false, c :: cs)
    match rest with
    | [] => .error .unexpectedEnd
    | d :: ds =>
      if '0' ≤ d && d ≤ '9' then
        let (digs, after) := takeDigits ds
        if d == '0' && digs ≠ [] then .error .invalid
        else
          match after with
          | a :: _ =>
            if a == '.' || a == 'e' || a == 'E' then .error .invalid
            else
              let n : Int := Int.ofNat (digitsToNat (d :: digs))
              .ok (if neg then -n else n, after)
          | [] =>
            let n : Int := Int.ofNat (digitsToNat (d :: digs))
            .ok (if neg then -n else n, [])
      else .error .invalid

/-- Check that `ks` is a literal prefix of the input and return the rest;
running out of input mid-keyword is an unexpected end. -/
def expectKeyword : List Char → List Char → Except JsonPErr (List Char)
  | [], cs => .ok cs
  | _ :: _, [] => .error .unexpectedEnd
  | k :: ks, c :: cs => if k == c then expectKeyword ks cs else .error .invalid

mutual

/-- Recursive-descent JSON value parser (fuel-indexed; the fuel is sized so
that well-formed inputs never exhaust it). -/
def parseJsonVal : Nat → List Char → Except JsonPErr (Json × List Char)
  | 0, _ => .error .invalid
  | fuel + 1, cs =>
    match skipWsL cs with
    | [] => .error .unexpectedEnd
    | c :: rest =>
      if c == '"' then
        (parseJsonStr rest).map (fun r => (.str (String.mk r.1), r.2))
      else if c == Char.ofNat 123 then
        parseJsonObj fuel (skipWsL rest) true
      else if c == '[' then
        (parseJsonArr fuel (skipWsL rest) true).map (fun r => (.arr r.1, r.2))
      else if c == 't' then
        (expectKeyword ['r', 'u', 'e'] rest).map (fun r => (.bool true, r))
      else if c == 'f' then
        (expectKeyword ['a', 'l', 's', 'e'] rest).map (fun r => (.bool false, r))
      else if c == 'n' then
        (expectKeyword ['u', 'l', 'l'] rest).map (fun r => (.null, r))
      else if c == '-' || ('0' ≤ c && c ≤ '9') then
        (parseJsonNum (c :: rest)).map (fun r => (.num r.1, r.2))
      else .error .invalid

/-- Parse array elements after `[` (whitespace already skipped); `first`
marks whether no element has been consumed yet, so `]` closes an empty
array only there. -/
def parseJsonArr : Nat → List Char → Bool → Except JsonPErr (List Json × List Char)
  | 0, _, _ => .error .invalid
  | _ + 1, [], _ => .error .unexpectedEnd
  | fuel + 1, c :: rest, first =>
    if c == ']' && first then .ok ([], rest)
    else
      match parseJsonVal fuel (c :: rest) with
      | .error e => .error e
      | .ok (v, after) =>
        match skipWsL after with
        | [] => .error .unexpectedEnd
        | d :: rest' =>
          if d == ']' then .ok ([v], rest')
          else if d == ',' then
            (parseJsonArr fuel (skipWsL rest') false).map (fun r => (v :: r.1, r.2))
          else .error .invalid

/-- Parse object members after the opening brace (whitespace already
skipped). -/
def parseJsonObj : Nat → List Char → Bool → Except JsonPErr (Json × List Char)
  | 0, _, _ => .error .invalid
  | _ + 1, [], _ => .error .unexpectedEnd
  | fuel + 1, c :: rest, first =>
    if c == Char.ofNat 125 && first then .ok (.obj [], rest)
    else if c == '"' then
      match parseJsonStr rest with
      | .error e => .error e
      | .ok (key, afterKey) =>
        match skipWsL afterKey with
        | [] => .error .unexpectedEnd
        | d :: rest' =>
          if d == ':' then
            match parseJsonVal fuel rest' with
            | .error e => .error e
            | .ok (v, afterVal) =>
              match skipWsL afterVal with
              | [] => .error .unexpectedEnd
              | e2 :: rest'' =>
                if e2 == Char.ofNat 125 then .ok (.obj [(String.mk key, v)], rest'')
                else if e2 == ',' then
                  match parseJsonObj fuel (skipWsL rest'') false with
                  | .ok (.obj fs, r) => .ok (.obj ((String.mk key, v) :: fs), r)
                  | .ok (j, r) => .ok (j, r)
                  | .error e => .error e
                else .error .invalid
          else .error .invalid
    else if first then .error .invalid
    else .error .invalid
end

/-- Model of JavaScript `JSON.parse`: parse one value, then require only
whitespace to remain (anything else is a syntax error, not an unexpected
end). -/
def jsonParse (s : String) : Except JsonPErr Json :=
  match parseJsonVal (s.length * 2 + 16) s.data with
  | .error e => .error e
  | .ok (j, rest) =>
    match skipWsL rest with
    | [] => .ok j
    | _ :: _ => .error .invalid

/-- The opening-brace character, written via its code point. -/
def lbrace : Char := Char.ofNat 123

/-- The closing-brace character, written via its code point. -/
def rbrace : Char := Char.ofNat 125

/-- The backtick character, written via its code point. -/
def btick : Char := Char.ofNat 96

/-- If `pat` is a literal prefix of `cs`, return the remainder. -/
def dropPre : List Char → List Char → Option (List Char)
  | [], cs => some cs
  | _ :: _, [] => none
  | p :: ps, c :: cs => if p == c then dropPre ps cs else none

/-- Whether `pat` is a literal prefix of `cs`. -/
def isPre (pat cs : List Char) : Bool :=
  (dropPre pat cs).isSome

/-- Split at the first occurrence of the literal substring `pat`:
returns the characters before it and the characters after it. -/
def splitAtFirstSub (pat : List Char) : List Char → Option (List Char × List Char)
  | [] => match dropPre pat [] with
    | some rest => some ([], rest)
    | none => none
  | c :: cs =>
    match dropPre pat (c :: cs) with
    | some rest => some ([], rest)
    | none => (splitAtFirstSub pat cs).map (fun r => (c :: r.1, r.2))

/-- Replace every (non-overlapping, left-to-right) occurrence of `pat` by
`rep`, as JavaScript `String.replace` with a global literal pattern does. -/
def replaceAllSub : Nat → List Char → List Char → List Char → List Char
  | 0, _, _, cs => cs
  | _ + 1, _, _, [] => []
  | fuel + 1, pat, rep, c :: cs =>
    match dropPre pat (c :: cs) with
    | some rest => rep ++ replaceAllSub fuel pat rep rest
    | none => c :: replaceAllSub fuel pat rep cs

/-- JavaScript `String.prototype.trim` on the character list (the engine
only ever trims single lines, so the common whitespace set suffices). -/
def jsTrimL (cs : List Char) : List Char :=
  ((cs.dropWhile isJsonWs).reverse.dropWhile isJsonWs).reverse

/-- JavaScript `s.trim()`. -/
def jsTrim (s : String) : String :=
  String.mk (jsTrimL s.data)

/-- JavaScript `s.split('\n')`. -/
def splitLines (s : String) : List String :=
  (s.data.splitOn '\n').map String.mk

/-- JavaScript `lines.join('\n')`. -/
def joinLines (ls : List String) : String :=
  String.mk (List.intercalate ['\n'] (ls.map String.data))

/-- The per-line keep test of the diagnostic filter (lines 6-13 of
`extract-json.ts`): a line survives when its trimmed form is non-empty
and starts with no bracketed severity tag. -/
def isKeptLine (line : String) : Bool :=
  let t := jsTrimL line.data
  !t.isEmpty
    && !(isPre ("[DEBUG]".data) t)
    && !(isPre ("[INFO]".data) t)
    && !(isPre ("[WARNING]".data) t)
    && !(isPre ("[ERROR]".data) t)

/-- Diagnostic-line filter of `extractJsonFromResponse` (lines 5-13 of
`extract-json.ts`). -/
def cleanLines (response : String) : List String :=
  (splitLines response).filter isKeptLine

/-- The cleaned response: non-debug lines re-joined with newlines. -/
def cleanResponse (response : String) : String :=
  joinLines (cleanLines response)

/-- Strategy 1 of the envelope content scraping: the capture of the match
of the pattern "fenced json block with escaped newlines" — the literal
marker backtick-backtick-backtick-json-backslash-n, a shortest-possible
body, and the literal closing backslash-n-backtick-backtick-backtick. -/
def codeBlockEscapedCapture (s : String) : Option String :=
  match splitAtFirstSub ([btick, btick, btick, 'j', 's', 'o', 'n', '\\', 'n']) s.data with
  | none => none
  | some (_, rest) =>
    match splitAtFirstSub (['\\', 'n', btick, btick, btick]) rest with
    | none => none
    | some (cap, _) => some (String.mk cap)

/-- The unescaping applied to a strategy-1 capture: replace every escaped
quote, then every escaped newline. -/
def unescapeJsonBlock (c : String) : String :=
  let step1 := replaceAllSub (c.data.length + 1) ['\\', '"'] ['"'] c.data
  String.mk (replaceAllSub (step1.length + 1) ['\\', 'n'] ['\n'] step1)

/-- Leading-whitespace length. -/
def wsRunLen (cs : List Char) : Nat :=
  (cs.takeWhile isJsonWs).length

/-- Position (from the front) of the last newline within the list, if any. -/
def lastNewlineIdx (cs : List Char) : Option Nat :=
  match cs.reverse.findIdx? (· == '\n') with
  | some k => some (cs.length - 1 - k)
  | none => none

/-- Whether an optional newline, then whitespace, then a closing fence
starts here (the tail of the strategy-2 pattern). -/
def fenceCloseHere (t : List Char) : Bool :=
  isPre [btick, btick, btick] (t.drop (wsRunLen t))

/-- Find the least split point of `body` whose remainder matches the
strategy-2 closing (lazy capture semantics); returns the capture. -/
def fenceCloseScan : Nat → List Char → List Char → Option (List Char)
  | 0, _, _ => none
  | fuel + 1, acc, body =>
    if fenceCloseHere body then some acc.reverse
    else
      match body with
      | [] => none
      | c :: body' => fenceCloseScan fuel (c :: acc) body'

/-- Strategy 2: the capture of the plain fenced-json-block pattern — the
marker backtick-backtick-backtick-json, whitespace containing at least one
real newline (the capture starts after the last newline of that run), a
lazy body, and a closing fence reached through optional trailing
whitespace.  Failed opens fall through to later occurrences of the
marker, as the regex engine does. -/
def codeBlockCaptureGo : Nat → List Char → Option String
  | 0, _ => none
  | fuel + 1, cs =>
    match splitAtFirstSub ([btick, btick, btick, 'j', 's', 'o', 'n']) cs with
    | none => none
    | some (_, rest) =>
      let wrun := rest.takeWhile isJsonWs
      match lastNewlineIdx wrun with
      | some k =>
        let body := rest.drop (k + 1)
        match fenceCloseScan (body.length + 1) [] body with
        | some cap => some (String.mk cap)
        | none => codeBlockCaptureGo fuel rest
      | none => codeBlockCaptureGo fuel rest

/-- Strategy 2 capture on a content string. -/
def codeBlockCapture (s : String) : Option String :=
  codeBlockCaptureGo (s.data.length + 1) s.data

/-- The head of the strategy-3 pattern: an opening brace, whitespace, the
quoted key "success", whitespace, a colon, whitespace, and a boolean
literal.  Returns the remainder after the literal. -/
def successHeadRest (cs : List Char) : Option (List Char) :=
  match cs with
  | [] => none
  | c :: r =>
    if c == lbrace then
      let r1 := r.dropWhile isJsonWs
      match dropPre ('"' :: ("success".data ++ ['"'])) r1 with
      | some r2 =>
        match r2.dropWhile isJsonWs with
        | ':' :: r4 =>
          let r5 := r4.dropWhile isJsonWs
          match dropPre ("true".data) r5 with
          | some r6 => some r6
          | none =>
            match dropPre ("false".data) r5 with
            | some r6 => some r6
            | none => none
        | _ => none
      | none => none
    else none

/-- Strategy 3: the whole-match text of the "embedded success object"
pattern — the head described above, then a lazy body up to the first
closing brace. -/
def successObjectScanGo : Nat → List Char → Option String
  | 0, _ => none
  | fuel + 1, cs =>
    match successHeadRest cs with
    | some r6 =>
      match splitAtFirstSub [rbrace] r6 with
      | some (mid, _) =>
        some (String.mk (cs.take (cs.length - r6.length + mid.length + 1)))
      | none =>
        match cs with
        | [] => none
        | _ :: t => successObjectScanGo fuel t
    | none =>
      match cs with
      | [] => none
      | _ :: t => successObjectScanGo fuel t

/-- Strategy 3 on a content string. -/
def successObjectScan (s : String) : Option String :=
  successObjectScanGo (s.data.length + 1) s.data

/-- Within the reversed tail of an array-scan candidate, find the first
closing bracket that is preceded (through whitespace) by a closing brace;
the returned count is the number of characters after it in the original
order. -/
def revCloseFind : List Char → Nat → Option Nat
  | [], _ => none
  | c :: r, d =>
    if c == ']' && (match r.dropWhile isJsonWs with
                    | x :: _ => x == rbrace
                    | [] => false) then some d
    else revCloseFind r (d + 1)

/-- The greedy embedded-array pattern of the step-3 fallback: an opening
bracket, whitespace, an opening brace, a greedy body, a closing brace,
whitespace, a closing bracket.  The match starts at the leftmost viable
open and extends to the last viable close. -/
def arrayScanGo : Nat → List Char → Option String
  | 0, _ => none
  | fuel + 1, s =>
    let attempt : Option String :=
      match s with
      | '[' :: r =>
        let w := r.takeWhile isJsonWs
        let r' := r.drop w.length
        match r' with
        | c :: tail =>
          if c == lbrace then
            match revCloseFind tail.reverse 0 with
            | some d => some (String.mk (s.take (2 + w.length + (tail.length - d))))
            | none => none
          else none
        | [] => none
      | _ => none
    match attempt with
    | some m => some m
    | none =>
      match s with
      | [] => none
      | _ :: t => arrayScanGo fuel t

/-- The step-3 embedded-array scan on the cleaned response. -/
def arrayScan (s : String) : Option String :=
  arrayScanGo (s.data.length + 1) s.data

/-- The step-3 embedded-object pattern: from the first opening brace to
the last closing brace after it. -/
def objectScan (s : String) : Option String :=
  match splitAtFirstSub [lbrace] s.data with
  | none => none
  | some (_, rest) =>
    match rest.reverse.findIdx? (· == rbrace) with
    | none => none
    | some k => some (String.mk (lbrace :: rest.take (rest.length - k)))

/-- Severity levels of review rules and results. -/
inductive SeverityLevel where
  | critical : SeverityLevel
  | error : SeverityLevel
  | warning : SeverityLevel
  | info : SeverityLevel
deriving DecidableEq, Repr

/-- A review rule (output type of `ReviewRuleSchema` in
`config-schema.ts`). -/
structure ReviewRule where
  id : String
  description : String
  severity : SeverityLevel
  correct : String
  incorrect : String
  fix : String
deriving DecidableEq, Repr

/-- A located review finding (`ReviewResult` in `types/index.ts`);
numbers are modelled as integers. -/
structure ReviewResult where
  file : String
  line : Int
  column : Int
  ruleId : String
  message : String
  severity : SeverityLevel
deriving DecidableEq, Repr

/-- A proposed fix (`FixResult` in `types/index.ts`). -/
structure FixResult where
  success : Bool
  description : String
  startLine : Int
  endLine : Int
  originalContent : String
  fixedContent : String
  reasoning : String
  confidence : Int
  appliedChange : String
deriving DecidableEq, Repr

/-- Classified failures of the extraction pipeline, mirroring the ad-hoc
fields the TypeScript code attaches to thrown `Error` objects:
`execution` carries `isExecutionError` and the raw response, `truncated`
carries `isTruncated` and the raw response, `format` carries the
validation error message, the rendered issue list and the raw response,
and `extraction` carries only the raw response. -/
inductive ExtractErr where
  | execution (message response : String) : ExtractErr
  | truncated (response : String) : ExtractErr
  | format (vMessage : String) (vIssues : List String) (response : String) : ExtractErr
  | extraction (response : String) : ExtractErr
deriving DecidableEq, Repr

/-- The `isExecutionError` flag. -/
def ExtractErr.isExecutionError : ExtractErr → Bool
  | .execution _ _ => true
  | _ => false

/-- The `isTruncated` flag. -/
def ExtractErr.isTruncated : ExtractErr → Bool
  | .truncated _ => true
  | _ => false

/-- The raw response attached to the error. -/
def ExtractErr.response : ExtractErr → String
  | .execution _ r => r
  | .truncated r => r
  | .format _ _ r => r
  | .extraction r => r

/-- Rendering of a structured issue list, modelling
`JSON.stringify(error.issues, null, 2)` abstractly (no claim inspects the
exact rendering). -/
def stringifyIssues (issues : List String) : String :=
  String.intercalate "; " issues

/-- The `message` property of the thrown `Error` object for each
classified failure, as built by `extract-json.ts`. -/
def ExtractErr.message : ExtractErr → String
  | .execution m _ => "Claude execution error: " ++ m
  | .truncated _ => "Response appears to be truncated. The output may be too large."
  | .format m issues _ => "Invalid format: " ++ m ++ ". Issues: " ++ stringifyIssues issues
  | .extraction r =>
    "Could not extract JSON from response. Response length: " ++ toString r.length ++ " bytes"

/-- JavaScript `a || b` on possibly-undefined JSON values: the first
operand if truthy, otherwise the second. -/
def jsOr (a b : Option Json) : Option Json :=
  match a with
  | some v => if v.truthy then some v else b
  | none => b

/-- Template-literal display of a JSON value (non-primitive display is
abstracted; no claim depends on it). -/
def jsDisplay : Json → String
  | .str s => s
  | .num n => toString n
  | .bool b => if b then "true" else "false"
  | .null => "null"
  | .arr _ => "[array]"
  | .obj _ => "[object Object]"

/-- The message of an agent-reported execution error:
`resultObject.error_message || resultObject.message ||
'Claude execution error occurred'`. -/
def execErrorMessage (ro : Json) : String :=
  match jsOr (ro.getField "error_message") (jsOr (ro.getField "message") none) with
  | some v => jsDisplay v
  | none => "Claude execution error occurred"

/-- The substitute value built by strategy 5 of `extract-json.ts`
(lines 128-141) when an envelope's string content defeats every parse
strategy. -/
def failureStub : Json :=
  .obj [("success", .bool false),
        ("description", .str "Failed to extract valid JSON from LLM response"),
        ("startLine", .num 1),
        ("endLine", .num 1),
        ("originalContent", .str ""),
        ("fixedContent", .str ""),
        ("reasoning", .str "LLM did not return expected JSON format"),
        ("confidence", .num 0),
        ("appliedChange", .str "No change applied due to parsing failure")]

/-- Strategies 1-5 applied to an envelope's string content
(`extract-json.ts` lines 82-141): a fenced block with escaped newlines, a
plain fenced block, the embedded success-object pattern, a direct parse,
and finally the substitute failure value.  `jsonResult0` is the (falsy)
value of `jsonResult` on entry; each strategy only runs while the
accumulated value is falsy, exactly as the `if (!jsonResult)` guards do. -/
def strategiesChain (jsonResult0 : Json) (content : String) : Json :=
  let j1 := match codeBlockEscapedCapture content with
    | some c =>
      match jsonParse (unescapeJsonBlock c) with
      | .ok v => v
      | .error _ => jsonResult0
    | none => jsonResult0
  let j2 := if j1.truthy then j1 else
    match codeBlockCapture content with
    | some c =>
      match jsonParse c with
      | .ok v => v
      | .error _ => j1
    | none => j1
  let j3 := if j2.truthy then j2 else
    match successObjectScan content with
    | some m =>
      match jsonParse m with
      | .ok v => v
      | .error _ => j2
    | none => j2
  let j4 := if j3.truthy then j3 else
    match jsonParse content with
    | .ok v => v
    | .error _ => j3
  if j4.truthy then j4 else failureStub

/-- Step 3 of `extract-json.ts` (lines 147-170): when no value has been
recovered yet, scan the cleaned text for an embedded array, then for an
embedded object. -/
def step3Fallback (jsonResult : Json) (cleaned : String) : Json :=
  if jsonResult.truthy then jsonResult
  else
    let ja := match arrayScan cleaned with
      | some m =>
        match jsonParse m with
        | .ok v => v
        | .error _ => jsonResult
      | none => jsonResult
    if ja.truthy then ja
    else
      match objectScan cleaned with
      | some m =>
        match jsonParse m with
        | .ok v => v
        | .error _ => ja
      | none => ja

/-- The tail of `extractJsonFromResponse` (lines 173-207): throw an
extraction error when nothing was recovered, otherwise validate against
the schema (a validation failure carries the structured issues and the
raw response). -/
def finishExtract {α : Type} (jsonResult : Json) (cleaned response : String)
    (schema : Json → Except (String × List String) α) : Except ExtractErr α :=
  let j := step3Fallback jsonResult cleaned
  if j.truthy then
    match schema j with
    | .ok out => .ok out
    | .error pr => .error (.format pr.1 pr.2 response)
  else .error (.extraction response)

/-- Lines 80-145 of `extract-json.ts`: pick the envelope's content field
(`result || content || response || output`), run the string strategies on
string content, adopt array/object/null content directly, then fall
through to step 3 and validation. -/
def extractFromContent {α : Type} (ro : Json) (jsonResult0 : Json) (cleaned response : String)
    (schema : Json → Except (String × List String) α) : Except ExtractErr α :=
  let content := jsOr (ro.getField "result")
    (jsOr (ro.getField "content") (jsOr (ro.getField "response") (ro.getField "output")))
  let j := match content with
    | some (.str s) => strategiesChain jsonResult0 s
    | some (.arr a) => .arr a
    | some (.obj fs) => .obj fs
    | some .null => .null
    | _ => jsonResult0
  finishExtract j cleaned response schema

/-- The step-1 test of `extract-json.ts` (line 24): a truthy parsed value
whose `type` field is the string `result`. -/
def isResultEnvelope (parsed : Json) : Bool :=
  parsed.truthy && (match parsed.getField "type" with
                    | some (.str t) => t == "result"
                    | _ => false)

/-- The step-2 test (line 34): the envelope's `subtype` marks an
execution-time failure. -/
def isErrorDuringExecution (ro : Json) : Bool :=
  match ro.getField "subtype" with
  | some (.str st) => st == "error_during_execution"
  | _ => false

/-- Step 1: the parsed envelope of the cleaned text, when there is one. -/
def resultObjectOf (cleaned : String) : Option Json :=
  match jsonParse cleaned with
  | .ok parsed => if isResultEnvelope parsed then some parsed else none
  | .error _ => none

/-- Shallow embedding of `extractJsonFromResponse` (`extract-json.ts`).
The optional valibot schema is modelled as a mandatory validation
function (a call without a schema corresponds to the always-accepting
validator `fun j => .ok j`). -/
def extractJsonFromResponse {α : Type} (response : String)
    (schema : Json → Except (String × List String) α) : Except ExtractErr α :=
  let cleaned := cleanResponse response
  match resultObjectOf cleaned with
  | some ro =>
    if isErrorDuringExecution ro then
      .error (.execution (execErrorMessage ro) response)
    else
      match ro.getField "result" with
      | some (.str r) =>
        if r != "" then
          match jsonParse r with
          | .ok parsed =>
            if parsed.truthy then
              match schema parsed with
              | .ok out => .ok out
              | .error pr => .error (.format pr.1 pr.2 response)
            else extractFromContent ro parsed cleaned response schema
          | .error perr =>
            if 9000 < r.length ∧ perr = .unexpectedEnd then
              .error (.truncated response)
            else extractFromContent ro .null cleaned response schema
        else extractFromContent ro .null cleaned response schema
      | _ => extractFromContent ro .null cleaned response schema
  | none => finishExtract .null cleaned response schema

/-- Field check modelling `v.boolean(msg)` on a possibly-missing field. -/
def vBool (v : Option Json) (msg : String) : Except String Bool :=
  match v with
  | some (.bool b) => .ok b
  | _ => .error msg

/-- Field check modelling `v.pipe(v.string(msgS), v.minLength(n, msgL))`;
with `n = 0` it models a bare `v.string(msgS)`. -/
def vStrMin (v : Option Json) (n : Nat) (msgS msgL : String) : Except String String :=
  match v with
  | some (.str s) => if n ≤ s.length then .ok s else .error msgL
  | _ => .error msgS

/-- Field check modelling `v.pipe(v.number(), v.integer(msgI),
v.minValue(lo, msgLo), v.maxValue(hi, msgHi))`.  Numbers are integers in
this model, so the `v.integer` action never fails; `hi = none` models a
pipe without a `maxValue` action. -/
def vIntRange (v : Option Json) (lo : Int) (hi : Option Int)
    (msgN msgLo msgHi : String) : Except String Int :=
  match v with
  | some (.num m) =>
    if m < lo then .error msgLo
    else
      match hi with
      | some h => if h < m then .error msgHi else .ok m
      | none => .ok m
  | _ => .error msgN

/-- Field check modelling the severity picklist. -/
def vSeverityPick (v : Json) (msg : String) : Except String SeverityLevel :=
  match v with
  | .str s =>
    if s == "critical" then .ok .critical
    else if s == "error" then .ok .error
    else if s == "warning" then .ok .warning
    else if s == "info" then .ok .info
    else .error msg
  | _ => .error msg

/-- A single character allowed inside a kebab-case group. -/
def isKebabChar (c : Char) : Bool :=
  ('a' ≤ c && c ≤ 'z') || ('0' ≤ c && c ≤ '9')

/-- Full-string match of the kebab-case pattern: one or more groups of
lowercase alphanumerics separated by single hyphens. -/
def kebabCheck : Nat → List Char → Bool
  | 0, _ => false
  | fuel + 1, cs =>
    let g := cs.takeWhile isKebabChar
    let rest := cs.drop g.length
    !g.isEmpty &&
      (match rest with
       | [] => true
       | c :: rest' => c == '-' && kebabCheck fuel rest')

/-- The error message of a failing check list: the first issue. -/
def firstIssue (issues : List String) : String :=
  match issues with
  | m :: _ => m
  | [] => "Invalid format"

/-- The issue produced by a field check, if any. -/
def issueOf {β : Type} (r : Except String β) : List String :=
  match r with
  | .error m => [m]
  | .ok _ => []

/-- Model of `FixResultSchema` (`config-schema.ts` lines 120-149): the
validated output as a `FixResult`, or the collected field issues. -/
def FixResultSchemaT (j : Json) : Except (String × List String) FixResult :=
  match j with
  | .obj _ =>
    let rSuc := vBool (j.getField "success") "Success must be a boolean"
    let rDesc := vStrMin (j.getField "description") 5
      "Invalid type: expected string" "Description must be at least 5 characters"
    let rStart := vIntRange (j.getField "startLine") 1 none
      "Invalid type: expected number" "Start line must be at least 1" ""
    let rEnd := vIntRange (j.getField "endLine") 1 none
      "Invalid type: expected number" "End line must be at least 1" ""
    let rOrig := vStrMin (j.getField "originalContent") 0
      "Original content must be a string" ""
    let rFixed := vStrMin (j.getField "fixedContent") 0
      "Fixed content must be a string" ""
    let rReason := vStrMin (j.getField "reasoning") 10
      "Invalid type: expected string" "Reasoning must be at least 10 characters"
    let rConf := vIntRange (j.getField "confidence") 0 (some 100)
      "Invalid type: expected number" "Confidence must be at least 0" "Confidence cannot exceed 100"
    let rApp := vStrMin (j.getField "appliedChange") 0
      "Applied change must be a string" ""
    match rSuc, rDesc, rStart, rEnd, rOrig, rFixed, rReason, rConf, rApp with
    | .ok b, .ok d, .ok sl, .ok el, .ok oc, .ok fc, .ok rs, .ok cf, .ok ac =>
      .ok ⟨b, d, sl, el, oc, fc, rs, cf, ac⟩
    | _, _, _, _, _, _, _, _, _ =>
      let issues := issueOf rSuc ++ issueOf rDesc ++ issueOf rStart ++ issueOf rEnd
        ++ issueOf rOrig ++ issueOf rFixed ++ issueOf rReason ++ issueOf rConf ++ issueOf rApp
      .error (firstIssue issues, issues)
  | _ => .error ("Invalid type: expected Object", ["Invalid type: expected Object"])

/-- Model of `ReviewRuleSchema` (`config-schema.ts` lines 62-85).  The
`severity` entry is optional with default `'warning'`, as
`v.optional(SeverityLevelSchema, 'warning')` makes it. -/
def ReviewRuleSchemaT (j : Json) : Except (String × List String) ReviewRule :=
  match j with
  | .obj _ =>
    let rId : Except String String := match vStrMin (j.getField "id") 1
      "Invalid type: expected string" "Rule ID cannot be empty" with
      | .ok s => if kebabCheck (s.length + 1) s.data then .ok s
                 else .error "Rule ID must be in kebab-case"
      | .error m => .error m
    let rDesc := vStrMin (j.getField "description") 20
      "Invalid type: expected string" "Rule description must be at least 20 characters"
    let rSev : Except String SeverityLevel := match j.getField "severity" with
      | none => .ok SeverityLevel.warning
      | some v => vSeverityPick v "Severity must be one of: critical, error, warning, info"
    let rCor := vStrMin (j.getField "correct") 10
      "Invalid type: expected string" "Correct example must be at least 10 characters"
    let rInc := vStrMin (j.getField "incorrect") 10
      "Invalid type: expected string" "Incorrect example must be at least 10 characters"
    let rFix := vStrMin (j.getField "fix") 20
      "Invalid type: expected string" "Fix instructions must be at least 20 characters"
    match rId, rDesc, rSev, rCor, rInc, rFix with
    | .ok i, .ok d, .ok sv, .ok c, .ok inc, .ok f => .ok ⟨i, d, sv, c, inc, f⟩
    | _, _, _, _, _, _ =>
      let issues := issueOf rId ++ issueOf rDesc ++ issueOf rSev
        ++ issueOf rCor ++ issueOf rInc ++ issueOf rFix
      .error (firstIssue issues, issues)
  | _ => .error ("Invalid type: expected Object", ["Invalid type: expected Object"])

/-- Elementwise validation of a JSON list. -/
def validateEach {β : Type} (check : Json → Except (String × List String) β) :
    List Json → Except (String × List String) (List β)
  | [] => .ok []
  | x :: xs =>
    match check x, validateEach check xs with
    | .ok b, .ok bs => .ok (b :: bs)
    | .error e, _ => .error e
    | _, .error e => .error e

/-- Model of the schema `generateRules` builds:
`v.pipe(v.array(ReviewRuleSchema), v.minLength(1, 'At least one rule must
be generated'))`. -/
def ReviewRulesArraySchemaT (j : Json) : Except (String × List String) (List ReviewRule) :=
  match j with
  | .arr xs =>
    match validateEach ReviewRuleSchemaT xs with
    | .ok rules =>
      if rules.isEmpty then
        .error ("At least one rule must be generated", ["At least one rule must be generated"])
      else .ok rules
    | .error e => .error e
  | _ => .error ("Invalid type: expected Array", ["Invalid type: expected Array"])

/-- Json-valued form of `FixResultSchemaT`: validate and return the input
value unchanged (the accepted values round-trip). -/
def FixResultCheckJ (j : Json) : Except (String × List String) Json :=
  (FixResultSchemaT j).map (fun _ => j)

/-- Json-valued form of `ReviewRulesArraySchemaT`. -/
def ReviewRulesCheckJ (j : Json) : Except (String × List String) Json :=
  (ReviewRulesArraySchemaT j).map (fun _ => j)

/-- The capture of the review fence pattern: a fence marker, an optional
`json` tag, then a lazily-captured, whitespace-trimmed body up to the
first closing fence. -/
def reviewFenceCapture (s : String) : Option String :=
  match splitAtFirstSub [btick, btick, btick] s.data with
  | none => none
  | some (_, rest) =>
    let rest' := match dropPre ("json".data) rest with
      | some r => r
      | none => rest
    match splitAtFirstSub [btick, btick, btick] rest' with
    | none => none
    | some (seg, _) => some (String.mk (jsTrimL seg))

/-- Brace-group loop of the review array pattern: zero or more
`{...}` groups (no nested braces), each optionally followed by a comma
and whitespace, then whitespace and the closing bracket.  Returns the
rest of the input after the bracket. -/
def reviewGroupsLoop : Nat → List Char → Option (List Char)
  | 0, _ => none
  | fuel + 1, t =>
    match t with
    | [] => none
    | c :: r =>
      if c == lbrace then
        match splitAtFirstSub [rbrace] r with
        | some (_, after) =>
          match after with
          | ',' :: a2 => reviewGroupsLoop fuel (a2.dropWhile isJsonWs)
          | _ => reviewGroupsLoop fuel after
        | none => none
      else
        match (c :: r).dropWhile isJsonWs with
        | ']' :: rest2 => some rest2
        | _ => none

/-- The review-results array pattern of `extractReviewResults`: a
bracketed list of flat brace groups. -/
def reviewArrayScanGo : Nat → List Char → Option String
  | 0, _ => none
  | fuel + 1, s =>
    let att : Option (List Char) := match s with
      | '[' :: r => reviewGroupsLoop (r.length + 1) (r.dropWhile isJsonWs)
      | _ => none
    match att with
    | some rest2 => some (String.mk (s.take (s.length - rest2.length)))
    | none =>
      match s with
      | [] => none
      | _ :: t => reviewArrayScanGo fuel t

/-- The review-results array scan on a content string. -/
def reviewArrayScan (s : String) : Option String :=
  reviewArrayScanGo (s.data.length + 1) s.data

/-- Field check modelling a bare `v.number()`. -/
def vNum (v : Option Json) (msg : String) : Except String Int :=
  match v with
  | some (.num m) => .ok m
  | _ => .error msg

/-- Model of the per-element review result schema defined inline in
`extractReviewResults`. -/
def ReviewResultSchemaT (j : Json) : Except (String × List String) ReviewResult :=
  match j with
  | .obj _ =>
    let rFile := vStrMin (j.getField "file") 0 "Invalid type: expected string" ""
    let rLine := vNum (j.getField "line") "Invalid type: expected number"
    let rCol := vNum (j.getField "column") "Invalid type: expected number"
    let rRule := vStrMin (j.getField "ruleId") 0 "Invalid type: expected string" ""
    let rMsg := vStrMin (j.getField "message") 0 "Invalid type: expected string" ""
    let rSev : Except String SeverityLevel := match j.getField "severity" with
      | some v => vSeverityPick v "Severity must be one of: critical, error, warning, info"
      | none => .error "Severity must be one of: critical, error, warning, info"
    match rFile, rLine, rCol, rRule, rMsg, rSev with
    | .ok f, .ok l, .ok c, .ok r, .ok m, .ok sv => .ok ⟨f, l, c, r, m, sv⟩
    | _, _, _, _, _, _ =>
      let issues := issueOf rFile ++ issueOf rLine ++ issueOf rCol
        ++ issueOf rRule ++ issueOf rMsg ++ issueOf rSev
      .error (firstIssue issues, issues)
  | _ => .error ("Invalid type: expected Object", ["Invalid type: expected Object"])

/-- Model of `ReviewResultsArraySchema` (`v.array(ReviewResultSchema)`,
no length constraint). -/
def ReviewResultsArraySchemaT (j : Json) : Except (String × List String) (List ReviewResult) :=
  match j with
  | .arr xs => validateEach ReviewResultSchemaT xs
  | _ => .error ("Invalid type: expected Array", ["Invalid type: expected Array"])

/-- Line scan of `extractReviewResults`: the first non-debug line that
parses as JSON and carries the `result` kind marker. -/
def findResultLine : List String → Option Json
  | [] => none
  | l :: ls =>
    match jsonParse l with
    | .ok obj =>
      if (match obj.getField "type" with
          | some (.str t) => t == "result"
          | _ => false)
      then some obj else findResultLine ls
    | .error _ => findResultLine ls

/-- The body of `extractReviewResults` before its catch-all handler
(`claude-provider.ts` lines 506-566): find the result envelope line,
strip an optional code fence from its string content, parse it (falling
back to the flat array pattern, then to the empty array), and validate. -/
def extractReviewResultsE (response : String) : Except String (List ReviewResult) :=
  match findResultLine (cleanLines response) with
  | none => .error "Could not find result object in response"
  | some ro =>
    let content := jsOr (ro.getField "result")
      (jsOr (ro.getField "content") (jsOr (ro.getField "response") (some (.str ""))))
    let jsonArray : Except String Json :=
      match content with
      | some (.str s) =>
        let jsonContent := match reviewFenceCapture s with
          | some c => c
          | none => s
        match jsonParse (jsTrim jsonContent) with
        | .ok v => .ok v
        | .error _ =>
          match reviewArrayScan jsonContent with
          | some m =>
            match jsonParse m with
            | .ok v => .ok v
            | .error _ => .error "Unexpected token in JSON"
          | none => .ok (.arr [])
      | some (.arr xs) => .ok (.arr xs)
      | _ => .ok (.arr [])
    match jsonArray with
    | .error e => .error e
    | .ok ja =>
      match ReviewResultsArraySchemaT ja with
      | .ok rs => .ok rs
      | .error pr => .error pr.1

/-- Shallow embedding of `extractReviewResults`: every failure of the
inner pipeline is caught and becomes the empty result list
(`claude-provider.ts` lines 567-576). -/
def extractReviewResults (response : String) : List ReviewResult :=
  match extractReviewResultsE response with
  | .ok rs => rs
  | .error _ => []

/-- The review outcome `reviewFile` (and `reviewDiff`) produces from the
single captured agent response: one invocation, no retry wrapper, and
`extractReviewResults` on the raw text. -/
def reviewFileResult (response : String) : List ReviewResult :=
  extractReviewResults response

/-- The error thrown by `extractFixResult`: a message wrapping the inner
failure, plus the raw response (the attached `validationError` payload is
never inspected downstream and is not modelled). -/
structure FixParseError where
  message : String
  response : String
deriving DecidableEq, Repr

/-- Shallow embedding of `ClaudeProvider.extractFixResult`: extract and
validate a `FixResult`, additionally rejecting `endLine < startLine`, and
wrap any failure into a `FixParseError` carrying the raw response. -/
def extractFixResult (response : String) : Except FixParseError FixResult :=
  let inner : Except String FixResult :=
    match extractJsonFromResponse response FixResultSchemaT with
    | .ok result =>
      if result.endLine < result.startLine then
        .error ("End line (" ++ toString result.endLine
          ++ ") cannot be less than start line (" ++ toString result.startLine ++ ")")
      else .ok result
    | .error e => .error e.message
  match inner with
  | .ok r => .ok r
  | .error m =>
    .error ⟨"Failed to parse FixResult from Claude response.\nError: " ++ m
      ++ "\nRaw response: " ++ response, response⟩

/-- JavaScript `Array.prototype.splice(start, delCount, ...items)` on a
line list: negative starts count from the end, the start is clamped to
the list length, and a negative delete count deletes nothing. -/
def jsSplice (l : List String) (start delCount : Int) (items : List String) : List String :=
  let len : Int := l.length
  let s : Int := if start < 0 then max (len + start) 0 else min start len
  let d : Int := max delCount 0
  l.take s.toNat ++ items ++ l.drop (s.toNat + d.toNat)

/-- Shallow embedding of `applyFixToContent` (`fix.ts` lines 17-31):
unsuccessful results leave the content untouched; otherwise the 1-based
inclusive line range `startLine..endLine` is spliced out and replaced by
the lines of `fixedContent`. -/
def applyFixToContent (content : String) (fixResult : FixResult) : String :=
  if !fixResult.success then content
  else
    let lines := splitLines content
    let startIndex : Int := fixResult.startLine - 1
    let endIndex : Int := fixResult.endLine - 1
    let fixedLines := splitLines fixResult.fixedContent
    joinLines (jsSplice lines startIndex (endIndex - startIndex + 1) fixedLines)

/-- The issue ordering of `fixCommand` (`fix.ts` line 142):
`issues.sort((a, b) => b.line - a.line)`, a stable sort into descending
line order. -/
def sortIssuesDesc (issues : List ReviewResult) : List ReviewResult :=
  issues.mergeSort (fun a b => decide (b.line ≤ a.line))

/-- One iteration of the per-file fix loop of `fixCommand` (`fix.ts`
lines 151-212): look up the issue's rule (skipping the issue when it is
missing), obtain the fix outcome for the current content, and on success
apply it; every thrown error is caught and leaves the content as it was. -/
def processIssue (rules : List ReviewRule)
    (fixOutcome : String → ReviewResult → ReviewRule → Except FixParseError FixResult)
    (content : String) (issue : ReviewResult) : String :=
  match rules.find? (fun r => r.id == issue.ruleId) with
  | none => content
  | some rule =>
    match fixOutcome content issue rule with
    | .error _ => content
    | .ok fixResult =>
      if fixResult.success then
        let newContent := applyFixToContent content fixResult
        if newContent != content then newContent else content
      else content

/-- The per-file fix loop: issues sorted descending by line, processed
sequentially over the running content. -/
def processIssues (rules : List ReviewRule)
    (fixOutcome : String → ReviewResult → ReviewRule → Except FixParseError FixResult)
    (content : String) (issues : List ReviewResult) : String :=
  (sortIssuesDesc issues).foldl (processIssue rules fixOutcome) content

/-- Specification-side definition (for the order-independence claim): the
simultaneous application of an ascending, pairwise-disjoint family of
line-range replacements to the original lines; `base` is the index after
the last already-consumed original line. -/
def applyFrom (L : List String) : Nat → List FixResult → List String
  | base, [] => L.drop base
  | base, f :: rest =>
    (L.take (f.startLine.toNat - 1)).drop base
      ++ splitLines f.fixedContent ++ applyFrom L f.endLine.toNat rest

/-- Errors flowing through the retry loop of `generateRules`: classified
extraction failures (which carry the raw response), or process-level
failures of the spawn itself (which carry no response and are never
flagged `isExecutionError`). -/
inductive ClaudeError where
  | extractE (e : ExtractErr) : ClaudeError
  | processE (message : String) : ClaudeError
deriving DecidableEq, Repr

/-- The `isExecutionError` flag on a retry-loop error. -/
def ClaudeError.isExecutionError : ClaudeError → Bool
  | .extractE e => e.isExecutionError
  | .processE _ => false

/-- The `response` property, when present. -/
def ClaudeError.responseOf : ClaudeError → Option String
  | .extractE e => some e.response
  | .processE _ => none

/-- The `message` property. -/
def ClaudeError.message : ClaudeError → String
  | .extractE e => e.message
  | .processE m => m

/-- Shallow embedding of `createErrorCorrectionPrompt`
(`claude-provider.ts` lines 32-47): the correction prompt references the
validation error message and the rendered issue list when the failure
carries a `validationError`, and the plain error message otherwise. -/
def createErrorCorrectionPrompt (e : ClaudeError) : String :=
  "The previous response had validation errors. " ++
  (match e with
   | .extractE (.format m issues _) =>
     "Validation error: " ++ m ++ "\n" ++ "Issues: " ++ stringifyIssues issues ++ "\n"
   | other => if other.message == "" then "" else other.message ++ "\n") ++
  "\nPlease provide a valid JSON array that conforms to the schema. Return ONLY the JSON array, no additional text."

/-- A truthy `session_id` field of a parsed value (the typed field is a
string; non-string values are not recovered in this model). -/
def sessionOfJson (j : Json) : Option String :=
  match j.getField "session_id" with
  | some (.str s) => if s != "" then some s else none
  | _ => none

/-- Line-by-line fallback of the session recovery: the first non-blank
line whose JSON parse succeeds with a truthy `session_id`. -/
def findSessionIdLines : List String → Option String
  | [] => none
  | l :: ls =>
    if jsTrim l != "" then
      match jsonParse l with
      | .ok obj =>
        match sessionOfJson obj with
        | some sid => some sid
        | none => findSessionIdLines ls
      | .error _ => findSessionIdLines ls
    else findSessionIdLines ls

/-- Session recovery from a failed attempt's raw text
(`claude-provider.ts` lines 300-325): parse the whole text first; only
when that parse throws, fall back to line-by-line scanning. -/
def findSessionId (response : String) : Option String :=
  match jsonParse response with
  | .ok obj => sessionOfJson obj
  | .error _ => findSessionIdLines (splitLines response)

/-- The request a call to `runClaudeWithRetry` issues
(`claude-provider.ts` lines 21-30): with a truthy session id and a
non-execution last error, a correction prompt under that session;
otherwise the original prompt with no session. -/
structure AttemptCall where
  prompt : String
  sessionId : Option String
deriving DecidableEq, Repr

/-- The call decision of `runClaudeWithRetry`. -/
def runClaudeWithRetry (prompt : String) (sessionId : Option String)
    (lastError : Option ClaudeError) : AttemptCall :=
  match sessionId, lastError with
  | some sid, some e =>
    if sid != "" && !e.isExecutionError then ⟨createErrorCorrectionPrompt e, some sid⟩
    else ⟨prompt, none⟩
  | _, _ => ⟨prompt, none⟩

/-- The session state after a failed attempt (`claude-provider.ts` lines
289-332): an execution error discards the session; otherwise a session id
recovered from the error's response replaces it, and a failed recovery
keeps the previous one. -/
def nextSessionOf (e : ClaudeError) (lastSessionId : Option String) : Option String :=
  if e.isExecutionError then none
  else match e.responseOf with
    | some r =>
      match findSessionId r with
      | some sid => some sid
      | none => lastSessionId
    | none => lastSessionId

/-- The retry loop of `generateRules` (`claude-provider.ts` lines
270-343).  `outcomes` gives, per attempt number, the combined result of
the invocation plus extraction/validation; the returned trace lists the
call issued for each attempt; at the last attempt the error is
rethrown. -/
def generateRulesLoop (outcomes : Nat → Except ClaudeError (List ReviewRule)) (prompt : String) :
    Nat → Nat → Option String → Option ClaudeError →
    List AttemptCall × Except ClaudeError (List ReviewRule)
  | attempt, remaining, lastSessionId, lastError =>
    let call := runClaudeWithRetry prompt lastSessionId lastError
    match outcomes attempt with
    | .ok rules => ([call], .ok rules)
    | .error e =>
      match remaining with
      | 0 => ([call], .error e)
      | rem + 1 =>
        let next := generateRulesLoop outcomes prompt (attempt + 1) rem
          (nextSessionOf e lastSessionId) (some e)
        (call :: next.1, next.2)

/-- The `generateRules` retry loop started in its initial state, for a
retry budget `maxRetries ≥ 1` (the provider-config schema enforces
1..10, and a falsy configured value falls back to 3). -/
def generateRules (outcomes : Nat → Except ClaudeError (List ReviewRule))
    (maxRetries : Nat) (prompt : String) :
    List AttemptCall × Except ClaudeError (List ReviewRule) :=
  generateRulesLoop outcomes prompt 1 (maxRetries - 1) none none

/-- Change kinds in the output of the external `parse-git-diff` library.
In that library an added line carries its new-file line number in
`lineAfter`, a deleted line carries its old-file line number in
`lineBefore`, and an unchanged (context) line carries both. -/
inductive ParsedChangeType where
  | addedLine : ParsedChangeType
  | deletedLine : ParsedChangeType
  | unchangedLine : ParsedChangeType
deriving DecidableEq, Repr

/-- One change of a parsed chunk (`ParsedChange` in `diff-parser.ts`). -/
structure ParsedChange where
  type : ParsedChangeType
  content : String
  lineAfter : Option Int := none
  lineBefore : Option Int := none
deriving DecidableEq, Repr

/-- A line range of a parsed chunk. -/
structure FileRange where
  start : Int
  lines : Int
deriving DecidableEq, Repr

/-- One chunk of a parsed file (`ParsedChunk`): `isChunk` models the
`chunk.type === 'Chunk'` discrimination against other chunk kinds of the
library. -/
structure ParsedChunk where
  isChunk : Bool
  fromFileRange : Option FileRange := none
  toFileRange : Option FileRange := none
  changes : Option (List ParsedChange) := none
deriving DecidableEq, Repr

/-- File kinds of the parsed diff. -/
inductive ParsedFileType where
  | modifiedFile : ParsedFileType
  | addedFile : ParsedFileType
  | deletedFile : ParsedFileType
  | renamedFile : ParsedFileType
  | binaryFile : ParsedFileType
deriving DecidableEq, Repr

/-- One file of the parsed diff (`ParsedFile`). -/
structure ParsedFile where
  type : ParsedFileType
  path : String
  pathBefore : Option String := none
  pathAfter : Option String := none
  chunks : Option (List ParsedChunk) := none
deriving DecidableEq, Repr

/-- The parsed diff (`ParsedDiff`): the typed boundary with the external
`parse-git-diff` call in `parseDiff`. -/
structure ParsedDiff where
  files : List ParsedFile
deriving DecidableEq, Repr

/-- Line tags of the mapped diff. -/
inductive DiffLineType where
  | add : DiffLineType
  | delete : DiffLineType
  | context : DiffLineType
deriving DecidableEq, Repr

/-- A mapped diff line (`DiffLine` in `diff-parser.ts`): `oldLine` is
declared to carry the old-file number and `newLine` the new-file
number. -/
structure DiffLine where
  type : DiffLineType
  content : String
  oldLine : Option Int
  newLine : Option Int
deriving DecidableEq, Repr

/-- A mapped hunk (`DiffHunk`). -/
structure DiffHunk where
  oldStart : Int
  oldLines : Int
  newStart : Int
  newLines : Int
  lines : List DiffLine
deriving DecidableEq, Repr

/-- A mapped file (`DiffFile`). -/
structure DiffFile where
  path : String
  oldPath : Option String
  additions : Int
  deletions : Int
  hunks : List DiffHunk
deriving DecidableEq, Repr

/-- JavaScript `x || undefined` on an optional number: a missing or zero
value becomes `undefined`. -/
def jsNumOrNone (v : Option Int) : Option Int :=
  match v with
  | some n => if n != 0 then some n else none
  | none => none

/-- Addition/deletion counting loop of `parseDiff`. -/
def countChanges (chunks : List ParsedChunk) : Int × Int :=
  chunks.foldl (fun acc chunk =>
    if chunk.isChunk && chunk.changes.isSome then
      (chunk.changes.getD []).foldl (fun (acc2 : Int × Int) change =>
        match change.type with
        | .addedLine => (acc2.1 + 1, acc2.2)
        | .deletedLine => (acc2.1, acc2.2 + 1)
        | .unchangedLine => acc2) acc
    else acc) (0, 0)

/-- Shallow embedding of `parseDiff` (`diff-parser.ts` lines 53-103)
applied to the typed output of the external `parse-git-diff` call: skip
binary files and files without chunks, resolve renamed paths, count
additions and deletions, and map every chunk's changes onto `DiffLine`
values exactly as the source does — `oldLine` is assigned from
`change.lineAfter` and `newLine` from `change.lineBefore`. -/
def parseDiff (parsed : ParsedDiff) : List DiffFile :=
  (parsed.files.filter (fun file =>
    file.type != ParsedFileType.binaryFile && file.chunks.isSome
      && !(file.chunks.getD []).isEmpty)).map (fun file =>
    let counts := countChanges (file.chunks.getD [])
    let path := if file.type == ParsedFileType.renamedFile
      then (file.pathAfter).getD "" else file.path
    let oldPath := if file.type == ParsedFileType.renamedFile
      then file.pathBefore else none
    { path := path
      oldPath := oldPath
      additions := counts.1
      deletions := counts.2
      hunks := ((file.chunks.getD []).filter (fun chunk =>
          chunk.isChunk && chunk.changes.isSome)).map (fun chunk =>
        { oldStart := ((chunk.fromFileRange).map FileRange.start).getD 0
          oldLines := ((chunk.fromFileRange).map FileRange.lines).getD 0
          newStart := ((chunk.toFileRange).map FileRange.start).getD 0
          newLines := ((chunk.toFileRange).map FileRange.lines).getD 0
          lines := (chunk.changes.getD []).map (fun change =>
            { type := match change.type with
                | .addedLine => DiffLineType.add
                | .deletedLine => DiffLineType.delete
                | .unchangedLine => DiffLineType.context
              content := change.content
              oldLine := jsNumOrNone change.lineAfter
              newLine := jsNumOrNone change.lineBefore }) }) })

/-- JavaScript `s.padStart(4)`. -/
def padStart4 (s : String) : String :=
  if 4 ≤ s.length then s
  else String.mk (List.replicate (4 - s.length) ' ') ++ s

/-- Shallow embedding of `formatDiffForReview` (`diff-parser.ts` lines
105-128): file headers, change counts, hunk ranges, and each line
prefixed by `line.newLine || line.oldLine || 0` padded to width 4 and a
`+`/`-`/space marker. -/
def formatDiffForReview (files : List DiffFile) : String :=
  let parts := files.foldl (fun (acc : List String) file =>
    let acc := acc ++ ["File: " ++ file.path]
    let acc := match file.oldPath with
      | some op => if op != file.path then acc ++ ["Renamed from: " ++ op] else acc
      | none => acc
    let acc := acc ++ ["Changes: +" ++ toString file.additions
      ++ " -" ++ toString file.deletions ++ "\n"]
    file.hunks.foldl (fun acc2 hunk =>
      let acc2 := acc2 ++ ["Lines " ++ toString hunk.newStart ++ "-"
        ++ toString (hunk.newStart + hunk.newLines - 1) ++ ":"]
      let acc2 := hunk.lines.foldl (fun acc3 line =>
        let lineNum := ((jsOr ((line.newLine).map Json.num)
          ((line.oldLine).map Json.num)).getD (Json.num 0))
        let n : Int := match lineNum with
          | .num n => n
          | _ => 0
        let pre := match line.type with
          | .add => "+"
          | .delete => "-"
          | .context => " "
        acc3 ++ [padStart4 (toString n) ++ " " ++ pre ++ " " ++ line.content]) acc2
      acc2 ++ [""]) acc) [] 
  String.intercalate "\n" parts

/-- Claim C1: a captured response whose cleaned text parses as a single
result envelope marked with the execution-time-failure subtype makes
`extractJsonFromResponse` raise an execution-classified error (flagged
`isExecutionError`, carrying the raw response) — never a format or
extraction error — whatever schema is expected. -/
theorem claimC1_execution_error {α : Type} (response : String)
    (schema : Json → Except (String × List String) α) (p : Json)
    (hp : jsonParse (cleanResponse response) = Except.ok p)
    (henv : isResultEnvelope p = true)
    (hsub : isErrorDuringExecution p = true) :
    extractJsonFromResponse response schema
      = Except.error (ExtractErr.execution (execErrorMessage p) response) := by
  simp only [extractJsonFromResponse, resultObjectOf, hp, henv, if_true, hsub]

/-- Witness for C1 at a concrete captured response. -/
theorem claimC1_execution_error_witness :
    extractJsonFromResponse
      "\x7b\"type\":\"result\",\"subtype\":\"error_during_execution\"\x7d"
      (fun j => Except.ok j)
      = Except.error (ExtractErr.execution
          (execErrorMessage (Json.obj [("type", Json.str "result"),
                                       ("subtype", Json.str "error_during_execution")]))
          "\x7b\"type\":\"result\",\"subtype\":\"error_during_execution\"\x7d") :=
  claimC1_execution_error _ _ _ rfl rfl rfl

/-- Claim C8: an envelope whose embedded `result` string exceeds 9000
characters and whose parse fails by running off the end of the input is
classified as a truncation failure (flagged `isTruncated`, carrying the
raw response), not as a generic extraction failure. -/
theorem claimC8_truncation {α : Type} (response : String)
    (schema : Json → Except (String × List String) α) (p : Json) (r : String)
    (hp : jsonParse (cleanResponse response) = Except.ok p)
    (henv : isResultEnvelope p = true)
    (hsub : isErrorDuringExecution p = false)
    (hres : p.getField "result" = some (Json.str r))
    (hne : (r != "") = true)
    (hlen : 9000 < r.length)
    (hparse : jsonParse r = Except.error JsonPErr.unexpectedEnd) :
    extractJsonFromResponse response schema
      = Except.error (ExtractErr.truncated response) := by
  simp only [extractJsonFromResponse, resultObjectOf, hp, henv, if_true, hsub,
    Bool.false_eq_true, if_false, hres, hne, hparse]
  rw [if_pos ⟨hlen, trivial⟩]


/-- A character that a JSON string body consumes verbatim. -/
def plainStrChar (c : Char) : Bool :=
  !(c == '"' || c == '\\')

/-- String-body parsing consumes a plain run verbatim up to the closing
quote. -/
theorem parseJsonStr_plain (plain rest : List Char)
    (h : ∀ c ∈ plain, plainStrChar c = true) :
    parseJsonStrS StrPState.normal (plain ++ '"' :: rest) = Except.ok (plain, rest) := by
  induction plain with
  | nil => rfl
  | cons c cs ih =>
    have hc := h c (List.mem_cons_self c cs)
    have hq : (c == '"') = false := by
      simp [plainStrChar] at hc; exact beq_eq_false_iff_ne.mpr hc.1
    have hb : (c == '\\') = false := by
      simp [plainStrChar] at hc; exact beq_eq_false_iff_ne.mpr hc.2
    have ihc := ih (fun x hx => h x (List.mem_cons_of_mem c hx))
    simp [parseJsonStrS, hq, hb, ihc, Except.map]

/-- Whitespace skipping consumes a space run entirely. -/
theorem skipWsL_replicate (n : Nat) : skipWsL (List.replicate n ' ') = [] := by
  induction n with
  | zero => rfl
  | succ m ih => simp [List.replicate_succ, skipWsL, isJsonWs, ih]

/-- The literal characters before the oversized payload in the truncation
witness response. -/
def bigPre : List Char := "\x7b\"type\":\"result\",\"result\":\"".data

/-- The literal characters after the payload. -/
def bigPost : List Char := "\"\x7d".data

/-- The oversized (9006-character) result payload that ends mid-token: an
opening bracket followed by whitespace only. -/
def payChars : List Char := '[' :: List.replicate 9005 ' '

/-- The payload as a string. -/
def bigTruncPayload : String := String.mk payChars

/-- The enclosing envelope response of the truncation witness. -/
def bigTruncResponse : String := String.mk (bigPre ++ (payChars ++ bigPost))

/-- Parsing an envelope around an arbitrary plain payload yields the
two-field result object (stated for every payload so that the proof
stays size-independent). -/
theorem jsonParse_envelope (pay : List Char)
    (h : ∀ c ∈ pay, plainStrChar c = true) :
    jsonParse (String.mk (bigPre ++ (pay ++ bigPost)))
      = Except.ok (Json.obj [("type", Json.str "result"),
                            ("result", Json.str (String.mk pay))]) := by
  have hfuel : (String.mk (bigPre ++ (pay ++ bigPost))).length * 2 + 16
      = (String.mk (bigPre ++ (pay ++ bigPost))).length * 2 + 12 + 1 + 1 + 1 + 1 := rfl
  have hstr : parseJsonStrS StrPState.normal (pay ++ '"' :: ['\x7d'])
      = Except.ok (pay, ['\x7d']) := parseJsonStr_plain pay _ h
  simp only [jsonParse, hfuel]
  simp [bigPre, bigPost, parseJsonVal, parseJsonObj, parseJsonStr, parseJsonStrS,
    skipWsL, isJsonWs, hstr, Except.map]

/-- Trimming leaves a list alone when both ends are non-whitespace. -/
theorem jsTrimL_of_ends (a : Char) (mid : List Char) (b : Char)
    (ha : isJsonWs a = false) (hb : isJsonWs b = false) :
    jsTrimL (a :: (mid ++ [b])) = a :: (mid ++ [b]) := by
  simp [jsTrimL, List.dropWhile, ha, List.reverse_append, hb]

/-- The partially-consumed top-level value of the truncated payload runs
out of input. -/
theorem payloadParse (f : Nat) :
    parseJsonVal (f + 1 + 1) ('[' :: List.replicate 9005 ' ')
      = Except.error JsonPErr.unexpectedEnd := by
  simp only [parseJsonVal]
  rw [show skipWsL ('[' :: List.replicate 9005 ' ') = '[' :: List.replicate 9005 ' ' from rfl]
  simp only [show ('[' == '"') = false from rfl, show ('[' == Char.ofNat 123) = false from rfl,
    show ('[' == '[') = true from rfl, Bool.false_eq_true, if_false, if_true]
  rw [skipWsL_replicate]
  simp only [parseJsonArr, Except.map]

/-- The truncated payload fails to parse with an unexpected end of
input. -/
theorem bigTruncPayload_parse :
    jsonParse bigTruncPayload = Except.error JsonPErr.unexpectedEnd := by
  have h16 : bigTruncPayload.length * 2 + 16
      = bigTruncPayload.length * 2 + 14 + 1 + 1 := rfl
  have hdata : bigTruncPayload.data = '[' :: List.replicate 9005 ' ' := rfl
  simp only [jsonParse, h16, hdata, payloadParse]

/-- Every character of the truncated payload is a plain string-body
character. -/
theorem payChars_plain : ∀ c ∈ payChars, plainStrChar c = true := by
  intro c hc
  rcases List.mem_cons.mp hc with h | h
  · subst h; decide
  · rw [(List.eq_of_mem_replicate h : c = ' ')]; decide

/-- The truncation witness response contains no newline. -/
theorem bigTruncResponse_no_newline :
    ∀ c ∈ bigTruncResponse.data, ¬((c == '\n') = true) := by
  have h1 : ∀ x ∈ bigPre, (x == '\n') = false := by decide
  have h2 : ∀ x ∈ bigPost, (x == '\n') = false := by decide
  intro c hc
  have hdata : bigTruncResponse.data = bigPre ++ (payChars ++ bigPost) := rfl
  rw [hdata] at hc
  rcases List.mem_append.mp hc with h | h
  · simp [h1 c h]
  · rcases List.mem_append.mp h with h3 | h3
    · rcases List.mem_cons.mp h3 with h4 | h4
      · subst h4; decide
      · rw [(List.eq_of_mem_replicate h4 : c = ' ')]; decide
    · simp [h2 c h3]

/-- Joining a single line is the identity. -/
theorem joinLines_single (s : String) : joinLines [s] = s := by
  simp [joinLines, List.intercalate]

/-- Cleaning the truncation witness response changes nothing: it is a
single non-blank, non-debug line. -/
theorem cleanResponse_bigTrunc : cleanResponse bigTruncResponse = bigTruncResponse := by
  have hsplit : splitLines bigTruncResponse = [bigTruncResponse] := by
    simp only [splitLines, List.splitOn]
    rw [List.splitOnP_eq_single _ _ (by
      intro x hx h
      exact bigTruncResponse_no_newline x hx h)]
    rfl
  have hshape : bigTruncResponse.data
      = '\x7b' :: (("\"type\":\"result\",\"result\":\"".data ++ (payChars ++ ['"'])) ++ ['\x7d']) := by
    simp [bigTruncResponse, bigPre, bigPost]
  have htrim : jsTrimL bigTruncResponse.data = bigTruncResponse.data := by
    rw [hshape]; exact jsTrimL_of_ends _ _ _ (by decide) (by decide)
  have hkeep : isKeptLine bigTruncResponse = true := by
    simp only [isKeptLine, htrim]
    rw [hshape]
    rfl
  show joinLines (List.filter isKeptLine (splitLines bigTruncResponse)) = bigTruncResponse
  rw [hsplit, List.filter_cons_of_pos hkeep, List.filter_nil, joinLines_single]

/-- The truncated payload is longer than 9000 characters. -/
theorem bigTruncPayload_len : 9000 < bigTruncPayload.length := by
  have h : bigTruncPayload.length = 9005 + 1 := by
    show ('[' :: List.replicate 9005 ' ').length = 9005 + 1
    rw [List.length_cons, List.length_replicate]
  omega

/-- Witness for C8 at a concrete oversized, cut-off envelope response. -/
theorem claimC8_truncation_witness :
    extractJsonFromResponse bigTruncResponse (fun j => Except.ok j)
      = Except.error (ExtractErr.truncated bigTruncResponse) :=
  claimC8_truncation bigTruncResponse (fun j => Except.ok j)
    (Json.obj [("type", Json.str "result"), ("result", Json.str bigTruncPayload)])
    bigTruncPayload
    (by rw [cleanResponse_bigTrunc]; exact jsonParse_envelope payChars payChars_plain)
    rfl rfl rfl rfl bigTruncPayload_len bigTruncPayload_parse

/-- Claim C3 (amended): when the cleaned response yields no result
envelope and neither fallback scan recovers a truthy parseable value,
`extractJsonFromResponse` throws an extraction error carrying the raw
response.  (As stated the claim is false: an envelope whose string
content defeats every strategy is answered with a substitute failure
object instead — see the counterexample.) -/
theorem claimC3_extraction_error {α : Type} (response : String)
    (schema : Json → Except (String × List String) α)
    (hro : resultObjectOf (cleanResponse response) = none)
    (harr : ∀ m v, arrayScan (cleanResponse response) = some m →
      jsonParse m = Except.ok v → v.truthy = false)
    (hobj : ∀ m v, objectScan (cleanResponse response) = some m →
      jsonParse m = Except.ok v → v.truthy = false) :
    extractJsonFromResponse response schema
      = Except.error (ExtractErr.extraction response) := by
  have hstep : (step3Fallback Json.null (cleanResponse response)).truthy = false := by
    have nullT : Json.truthy Json.null = false := rfl
    cases h1 : arrayScan (cleanResponse response) with
    | none =>
      cases h2 : objectScan (cleanResponse response) with
      | none => simp [step3Fallback, h1, h2, nullT]
      | some m2 =>
        cases h4 : jsonParse m2 with
        | ok v2 => simp [step3Fallback, h1, h2, h4, nullT, hobj m2 v2 h2 h4]
        | error e2 => simp [step3Fallback, h1, h2, h4, nullT]
    | some m =>
      cases h3 : jsonParse m with
      | ok v =>
        have hv := harr m v h1 h3
        cases h2 : objectScan (cleanResponse response) with
        | none => simp [step3Fallback, h1, h3, h2, nullT, hv]
        | some m2 =>
          cases h4 : jsonParse m2 with
          | ok v2 => simp [step3Fallback, h1, h3, h2, h4, nullT, hv, hobj m2 v2 h2 h4]
          | error e2 => simp [step3Fallback, h1, h3, h2, h4, nullT, hv]
      | error e =>
        cases h2 : objectScan (cleanResponse response) with
        | none => simp [step3Fallback, h1, h3, h2, nullT]
        | some m2 =>
          cases h4 : jsonParse m2 with
          | ok v2 => simp [step3Fallback, h1, h3, h2, h4, nullT, hobj m2 v2 h2 h4]
          | error e2 => simp [step3Fallback, h1, h3, h2, h4, nullT]
  simp only [extractJsonFromResponse, hro, finishExtract, hstep, Bool.false_eq_true, if_false]

/-- Witness for the amended C3 at a concrete unusable response. -/
theorem claimC3_extraction_error_witness :
    extractJsonFromResponse "no json at all" (fun j => Except.ok j)
      = Except.error (ExtractErr.extraction "no json at all") :=
  claimC3_extraction_error "no json at all" (fun j => Except.ok j) rfl
    (fun m v hm => by rw [show arrayScan (cleanResponse "no json at all") = none from rfl] at hm; cases hm)
    (fun m v hm => by rw [show objectScan (cleanResponse "no json at all") = none from rfl] at hm; cases hm)

/-- Counterexample to C3 as stated: a result envelope whose string
content defeats every parse strategy is not answered with an extraction
error — a substitute failure object is silently returned instead. -/
theorem claimC3_counterexample :
    codeBlockEscapedCapture "hello world" = none ∧
    codeBlockCapture "hello world" = none ∧
    successObjectScan "hello world" = none ∧
    jsonParse "hello world" = Except.error JsonPErr.invalid ∧
    extractJsonFromResponse "\x7b\"type\":\"result\",\"result\":\"hello world\"\x7d"
      (fun j => Except.ok j) = Except.ok failureStub :=
  ⟨rfl, rfl, rfl, rfl, rfl⟩

/-- Claim C2 (amended): extraction round-trips — for a response whose
cleaned text is well-formed JSON (an object or an array) accepted
unchanged by the expected schema, `extractJsonFromResponse` returns
exactly the parsed value — provided the text carries no result-envelope
marker and the first embedded-JSON scan that parses recovers the parsed
value itself.  (As stated the claim is false: a bracketed fragment inside
a string field can be recovered instead of the whole value — see the
counterexample.) -/
theorem claimC2_roundtrip (response : String)
    (schema : Json → Except (String × List String) Json) (j : Json)
    (hp : jsonParse (cleanResponse response) = Except.ok j)
    (hoa : (∃ fs, j = Json.obj fs) ∨ (∃ xs, j = Json.arr xs))
    (henv : isResultEnvelope j = false)
    (hscan : (∃ m, arrayScan (cleanResponse response) = some m ∧ jsonParse m = Except.ok j)
      ∨ ((∀ m, arrayScan (cleanResponse response) = some m → (jsonParse m).isOk = false)
         ∧ ∃ m, objectScan (cleanResponse response) = some m ∧ jsonParse m = Except.ok j))
    (hs : schema j = Except.ok j) :
    extractJsonFromResponse response schema = Except.ok j := by
  have htr : j.truthy = true := by
    rcases hoa with ⟨fs, rfl⟩ | ⟨xs, rfl⟩ <;> rfl
  have hro : resultObjectOf (cleanResponse response) = none := by
    simp [resultObjectOf, hp, henv]
  have hstep : step3Fallback Json.null (cleanResponse response) = j := by
    have nullT : Json.truthy Json.null = false := rfl
    rcases hscan with ⟨m, hm, hpm⟩ | ⟨hfail, m, hm, hpm⟩
    · simp [step3Fallback, hm, hpm, nullT, htr]
    · cases h1 : arrayScan (cleanResponse response) with
      | none => simp [step3Fallback, h1, hm, hpm, nullT, htr]
      | some m0 =>
        cases h3 : jsonParse m0 with
        | ok v => have := hfail m0 h1; rw [h3] at this; cases this
        | error e => simp [step3Fallback, h1, h3, hm, hpm, nullT, htr]
  simp only [extractJsonFromResponse, hro, finishExtract, hstep, htr, if_true, hs]

/-- A well-formed rule-array response for the round-trip witness. -/
def rulesArrayResponse : String :=
  "[\x7b\"id\":\"a-b\",\"description\":\"dddddddddddddddddddd\",\"severity\":\"warning\",\"correct\":\"cccccccccc\",\"incorrect\":\"iiiiiiiiii\",\"fix\":\"ffffffffffffffffffff\"\x7d]"

/-- The parsed value of `rulesArrayResponse`. -/
def rulesArrayJson : Json :=
  Json.arr [Json.obj [("id", Json.str "a-b"),
    ("description", Json.str "dddddddddddddddddddd"),
    ("severity", Json.str "warning"),
    ("correct", Json.str "cccccccccc"),
    ("incorrect", Json.str "iiiiiiiiii"),
    ("fix", Json.str "ffffffffffffffffffff")]]

set_option maxRecDepth 8000 in
/-- Witness for the amended C2: a schema-valid rule array round-trips. -/
theorem claimC2_roundtrip_witness :
    extractJsonFromResponse rulesArrayResponse ReviewRulesCheckJ
      = Except.ok rulesArrayJson :=
  claimC2_roundtrip rulesArrayResponse ReviewRulesCheckJ rulesArrayJson rfl
    (Or.inr ⟨_, rfl⟩) rfl
    (Or.inl ⟨rulesArrayResponse, rfl, rfl⟩) rfl

/-- A schema-valid fix-result response whose description field contains a
bracketed fragment. -/
def fixHijackResponse : String :=
  "\x7b\"success\":true,\"description\":\"x [\x7b\x7d] y\",\"startLine\":1,\"endLine\":1,\"originalContent\":\"\",\"fixedContent\":\"\",\"reasoning\":\"because rule\",\"confidence\":90,\"appliedChange\":\"none\"\x7d"

/-- The parsed value of `fixHijackResponse`. -/
def fixHijackJson : Json :=
  Json.obj [("success", Json.bool true),
    ("description", Json.str "x [\x7b\x7d] y"),
    ("startLine", Json.num 1),
    ("endLine", Json.num 1),
    ("originalContent", Json.str ""),
    ("fixedContent", Json.str ""),
    ("reasoning", Json.str "because rule"),
    ("confidence", Json.num 90),
    ("appliedChange", Json.str "none")]

set_option maxRecDepth 8000 in
/-- Counterexample to C2 as stated: a response that is well-formed JSON
validating against the fix-result schema, yet extraction does not return
its parse — the embedded-array scan recovers the bracketed fragment
inside the description string and validation then fails. -/
theorem claimC2_counterexample :
    jsonParse fixHijackResponse = Except.ok fixHijackJson ∧
    FixResultCheckJ fixHijackJson = Except.ok fixHijackJson ∧
    arrayScan fixHijackResponse = some "[\x7b\x7d]" ∧
    (extractJsonFromResponse fixHijackResponse FixResultCheckJ).isOk = false ∧
    extractJsonFromResponse fixHijackResponse FixResultCheckJ
      = Except.error (ExtractErr.format "Invalid type: expected Object"
          ["Invalid type: expected Object"] fixHijackResponse) :=
  ⟨rfl, rfl, rfl, rfl, rfl⟩

/-- One unfolding of the retry loop on a failing non-final attempt. -/
theorem generateRulesLoop_step (outcomes : Nat → Except ClaudeError (List ReviewRule))
    (prompt : String) (a rem : Nat) (s : Option String) (err : Option ClaudeError)
    (e : ClaudeError) (he : outcomes a = Except.error e) :
    generateRulesLoop outcomes prompt a (rem + 1) s err
      = (runClaudeWithRetry prompt s err
          :: (generateRulesLoop outcomes prompt (a + 1) rem (nextSessionOf e s) (some e)).1,
         (generateRulesLoop outcomes prompt (a + 1) rem (nextSessionOf e s) (some e)).2) := by
  rw [generateRulesLoop]
  simp only [he]

/-- One unfolding of the retry loop on a failing final attempt: the error
is rethrown. -/
theorem generateRulesLoop_last (outcomes : Nat → Except ClaudeError (List ReviewRule))
    (prompt : String) (a : Nat) (s : Option String) (err : Option ClaudeError)
    (e : ClaudeError) (he : outcomes a = Except.error e) :
    generateRulesLoop outcomes prompt a 0 s err
      = ([runClaudeWithRetry prompt s err], Except.error e) := by
  rw [generateRulesLoop]
  simp only [he]

/-- The first call of any run of the retry loop is the one
`runClaudeWithRetry` decides from the incoming state. -/
theorem generateRulesLoop_head (outcomes : Nat → Except ClaudeError (List ReviewRule))
    (prompt : String) (a rem : Nat) (s : Option String) (err : Option ClaudeError) :
    (generateRulesLoop outcomes prompt a rem s err).1.head?
      = some (runClaudeWithRetry prompt s err) := by
  cases h : outcomes a with
  | ok rules => rw [generateRulesLoop]; simp only [h]; rfl
  | error e =>
    cases rem with
    | zero => rw [generateRulesLoop_last outcomes prompt a s err e h]; rfl
    | succ r => rw [generateRulesLoop_step outcomes prompt a r s err e h]; rfl

/-- Claim C4: with a retry budget of 3 and an execution-classified error
on every attempt, exactly 3 invocations occur, each with the original
prompt and no continuity token, and the error finally thrown is the
third attempt's. -/
theorem claimC4_execution_retries (outcomes : Nat → Except ClaudeError (List ReviewRule))
    (prompt : String) (e1 e2 e3 : ClaudeError)
    (h1 : outcomes 1 = Except.error e1) (h2 : outcomes 2 = Except.error e2)
    (h3 : outcomes 3 = Except.error e3)
    (x1 : e1.isExecutionError = true) (x2 : e2.isExecutionError = true)
    (x3 : e3.isExecutionError = true) :
    generateRules outcomes 3 prompt
      = ([⟨prompt, none⟩, ⟨prompt, none⟩, ⟨prompt, none⟩], Except.error e3) := by
  have s1 : nextSessionOf e1 (none : Option String) = none := by simp [nextSessionOf, x1]
  have s2 : nextSessionOf e2 (none : Option String) = none := by simp [nextSessionOf, x2]
  have c1 : runClaudeWithRetry prompt none none = ⟨prompt, none⟩ := rfl
  have c2 : runClaudeWithRetry prompt none (some e1) = ⟨prompt, none⟩ := rfl
  have c3 : runClaudeWithRetry prompt none (some e2) = ⟨prompt, none⟩ := rfl
  show generateRulesLoop outcomes prompt 1 (3 - 1) none none = _
  rw [show (3 : Nat) - 1 = 1 + 1 from rfl,
    generateRulesLoop_step outcomes prompt 1 1 none none e1 h1, s1, c1,
    show (1 : Nat) = 0 + 1 from rfl,
    generateRulesLoop_step outcomes prompt 2 0 none (some e1) e2 h2, s2, c2,
    generateRulesLoop_last outcomes prompt 3 none (some e2) e3 h3, c3]

/-- A single execution-classified failure outcome. -/
def execOutcomes : Nat → Except ClaudeError (List ReviewRule) :=
  fun _ => Except.error (ClaudeError.extractE (ExtractErr.execution "boom" "resp"))

/-- Witness for C4 at a concrete always-failing oracle. -/
theorem claimC4_execution_retries_witness :
    generateRules execOutcomes 3 "P"
      = ([⟨"P", none⟩, ⟨"P", none⟩, ⟨"P", none⟩],
         Except.error (ClaudeError.extractE (ExtractErr.execution "boom" "resp"))) :=
  claimC4_execution_retries execOutcomes "P" _ _ _ rfl rfl rfl rfl rfl rfl

/-- Claim C5 (amended): after a format-classified failure whose raw text
yields a recoverable session id, the next attempt is issued with exactly
that continuity token and the correction prompt built from the
validation failure; when no id is recoverable the next attempt keeps the
previously recovered token — and is fresh with the original prompt only
when no earlier attempt ever yielded one.  (As stated — "if no token is
recoverable the next attempt is fresh" — the claim is false once a stale
token exists; see the counterexample.) -/
theorem claimC5_format_retry :
    (∀ (outcomes : Nat → Except ClaudeError (List ReviewRule)) (prompt : String)
       (a rem : Nat) (s0 : Option String) (err0 : Option ClaudeError)
       (e : ClaudeError) (r : String) (sid : String),
       outcomes a = Except.error e → e.isExecutionError = false →
       e.responseOf = some r → findSessionId r = some sid → (sid != "") = true →
       (generateRulesLoop outcomes prompt a (rem + 1) s0 err0).1
         = runClaudeWithRetry prompt s0 err0
           :: (generateRulesLoop outcomes prompt (a + 1) rem (some sid) (some e)).1
       ∧ (generateRulesLoop outcomes prompt (a + 1) rem (some sid) (some e)).1.head?
         = some ⟨createErrorCorrectionPrompt e, some sid⟩)
    ∧ (∀ (outcomes : Nat → Except ClaudeError (List ReviewRule)) (prompt : String)
       (a rem : Nat) (err0 : Option ClaudeError) (e : ClaudeError) (r : String),
       outcomes a = Except.error e → e.isExecutionError = false →
       e.responseOf = some r → findSessionId r = none →
       (generateRulesLoop outcomes prompt a (rem + 1) none err0).1
         = runClaudeWithRetry prompt none err0
           :: (generateRulesLoop outcomes prompt (a + 1) rem none (some e)).1
       ∧ (generateRulesLoop outcomes prompt (a + 1) rem none (some e)).1.head?
         = some ⟨prompt, none⟩) := by
  constructor
  · intro outcomes prompt a rem s0 err0 e r sid he hnx hr hsid hne
    have hsess : nextSessionOf e s0 = some sid := by
      simp [nextSessionOf, hnx, hr, hsid]
    constructor
    · rw [generateRulesLoop_step outcomes prompt a rem s0 err0 e he, hsess]
    · rw [generateRulesLoop_head]
      simp [runClaudeWithRetry, hne, hnx]
  · intro outcomes prompt a rem err0 e r he hnx hr hsid
    have hsess : nextSessionOf e (none : Option String) = none := by
      simp [nextSessionOf, hnx, hr, hsid]
    constructor
    · rw [generateRulesLoop_step outcomes prompt a rem none err0 e he, hsess]
    · rw [generateRulesLoop_head]
      rfl

/-- The raw text of the first failed attempt in the C5 scenarios: it
carries the session id `abc123`. -/
def sessionResponse : String := "\x7b\"session_id\":\"abc123\"\x7d"

/-- A first-attempt format failure whose raw text carries `abc123`. -/
def fmtErr1 : ClaudeError := ClaudeError.extractE (ExtractErr.format "m1" ["i1"] sessionResponse)

/-- A second-attempt format failure whose raw text carries no session. -/
def fmtErr2 : ClaudeError := ClaudeError.extractE (ExtractErr.format "m2" ["i2"] "garbage")

/-- The C5 oracle: a format failure with a recoverable token, then a
format failure without one. -/
def c5Outcomes : Nat → Except ClaudeError (List ReviewRule) :=
  fun n => if n == 1 then Except.error fmtErr1 else Except.error fmtErr2

/-- Witness for the amended C5: after the first format failure the next
attempt carries exactly the token `abc123` and the correction prompt. -/
theorem claimC5_format_retry_witness :
    (generateRulesLoop c5Outcomes "P" 1 (1 + 1) none none).1
      = runClaudeWithRetry "P" none none
        :: (generateRulesLoop c5Outcomes "P" 2 1 (some "abc123") (some fmtErr1)).1
    ∧ (generateRulesLoop c5Outcomes "P" 2 1 (some "abc123") (some fmtErr1)).1.head?
      = some ⟨createErrorCorrectionPrompt fmtErr1, some "abc123"⟩ :=
  claimC5_format_retry.1 c5Outcomes "P" 1 1 none none fmtErr1 sessionResponse "abc123"
    rfl rfl rfl rfl rfl

set_option maxRecDepth 8000 in
/-- Counterexample to C5 as stated: in the run of `c5Outcomes` the second
failure recovers no token, yet the third attempt is not fresh — it still
carries the stale token `abc123` and a correction prompt. -/
theorem claimC5_counterexample :
    findSessionId "garbage" = none ∧
    (generateRules c5Outcomes 3 "P").1.get? 2
      = some ⟨createErrorCorrectionPrompt fmtErr2, some "abc123"⟩ ∧
    (generateRules c5Outcomes 3 "P").1.get? 2 ≠ some ⟨"P", none⟩ := by
  refine ⟨rfl, ?_, ?_⟩ <;> decide

/-- Claim C7: a fix result whose `endLine` is strictly less than its
`startLine` is rejected before any application — `extractFixResult`
throws instead of returning it, and an issue whose fix outcome is an
error leaves the running file content unchanged for the subsequent
issues. -/
theorem claimC7_invalid_range_rejected (response : String) (fr : FixResult)
    (hex : extractJsonFromResponse response FixResultSchemaT = Except.ok fr)
    (hlt : fr.endLine < fr.startLine) :
    (extractFixResult response
      = Except.error ⟨"Failed to parse FixResult from Claude response.\nError: "
          ++ ("End line (" ++ toString fr.endLine
              ++ ") cannot be less than start line (" ++ toString fr.startLine ++ ")")
          ++ "\nRaw response: " ++ response, response⟩)
    ∧ (∀ (rules : List ReviewRule)
         (fixOutcome : String → ReviewResult → ReviewRule → Except FixParseError FixResult)
         (content : String) (issue : ReviewResult) (rule : ReviewRule) (err : FixParseError),
         rules.find? (fun ru => ru.id == issue.ruleId) = some rule →
         fixOutcome content issue rule = Except.error err →
         processIssue rules fixOutcome content issue = content) := by
  constructor
  · simp [extractFixResult, hex, if_pos hlt]
  · intro rules fixOutcome content issue rule err hrule houtcome
    simp [processIssue, hrule, houtcome]

/-- A schema-valid fix-result response with `startLine = 5`,
`endLine = 3`. -/
def badRangeResponse : String :=
  "\x7b\"success\":true,\"description\":\"descr\",\"startLine\":5,\"endLine\":3,\"originalContent\":\"\",\"fixedContent\":\"\",\"reasoning\":\"reasonable\",\"confidence\":50,\"appliedChange\":\"swap\"\x7d"

/-- The validated fix result of `badRangeResponse`. -/
def badRangeFix : FixResult :=
  ⟨true, "descr", 5, 3, "", "", "reasonable", 50, "swap"⟩

/-- A concrete rule for the C7 witness. -/
def rule0 : ReviewRule := ⟨"r-1", "a rule description long enough", SeverityLevel.warning, "correct ex", "incorrect x", "fix guidance long enough"⟩

/-- A concrete issue for the C7 witness. -/
def issue0 : ReviewResult := ⟨"f.ts", 2, 1, "r-1", "bad", SeverityLevel.warning⟩

/-- A concrete fix-outcome error for the C7 witness. -/
def err0 : FixParseError := ⟨"msg", "resp"⟩

/-- An always-failing fix oracle for the C7 witness. -/
def failingFixOutcome : String → ReviewResult → ReviewRule → Except FixParseError FixResult :=
  fun _ _ _ => Except.error err0

set_option maxRecDepth 8000 in
/-- Witness for C7 at the concrete `startLine = 5, endLine = 3` input. -/
theorem claimC7_invalid_range_rejected_witness :
    (extractFixResult badRangeResponse
      = Except.error ⟨"Failed to parse FixResult from Claude response.\nError: "
          ++ ("End line (" ++ toString (3 : Int)
              ++ ") cannot be less than start line (" ++ toString (5 : Int) ++ ")")
          ++ "\nRaw response: " ++ badRangeResponse, badRangeResponse⟩)
    ∧ processIssue [rule0] failingFixOutcome "line one\nline two" issue0 = "line one\nline two" :=
  ⟨(claimC7_invalid_range_rejected badRangeResponse badRangeFix rfl (by decide)).1,
   (claimC7_invalid_range_rejected badRangeResponse badRangeFix rfl (by decide)).2
     [rule0] failingFixOutcome "line one\nline two" issue0 rule0 err0 rfl rfl⟩

/-- A well-formed review envelope reporting zero violations. -/
def emptyOkReviewResponse : String := "\x7b\"type\":\"result\",\"result\":\"[]\"\x7d"

/-- Claim C10: whenever the review extraction pipeline fails — no result
envelope, unparseable content, or validation failure — the error is
swallowed and the empty list is returned, so `reviewFile`'s outcome on a
malformed response is indistinguishable from a clean review that found
no violations; no retry is involved, the single captured response decides
the result. -/
theorem claimC10_review_errors_swallowed (response : String) (e : String)
    (he : extractReviewResultsE response = Except.error e) :
    extractReviewResults response = []
    ∧ reviewFileResult response = reviewFileResult emptyOkReviewResponse
    ∧ extractReviewResults emptyOkReviewResponse = [] := by
  refine ⟨?_, ?_, rfl⟩
  · simp [extractReviewResults, he]
  · simp [reviewFileResult, extractReviewResults, he]
    rfl

/-- Witness for C10 at a concrete malformed review response. -/
theorem claimC10_review_errors_swallowed_witness :
    extractReviewResults "not a review" = []
    ∧ reviewFileResult "not a review" = reviewFileResult emptyOkReviewResponse
    ∧ extractReviewResults emptyOkReviewResponse = [] :=
  claimC10_review_errors_swallowed "not a review"
    "Could not find result object in response" rfl

/-- A parsed diff with a single added line: the library reports its
new-file line number 5 in `lineAfter`. -/
def addedLineParsed : ParsedDiff :=
  ⟨[⟨ParsedFileType.modifiedFile, "a.ts", none, none,
     some [⟨true, some ⟨4, 0⟩, some ⟨5, 1⟩,
       some [⟨ParsedChangeType.addedLine, "x", some 5, none⟩]⟩]⟩]⟩

/-- Claim C9 evaluated at the failing input (code bug): the mapping in
`parseDiff` assigns `change.lineAfter` to `oldLine` and
`change.lineBefore` to `newLine`, so an added line carries its new-file
number 5 in `oldLine` while `newLine` is left undefined — the opposite of
what the `DiffLine` field names and the specification state.  The
rendered review form masks the slip for add/delete lines because its
fallback `newLine || oldLine || 0` still finds the number. -/
theorem claimC9_added_line_fields_swapped :
    parseDiff addedLineParsed
      = [{ path := "a.ts", oldPath := none, additions := 1, deletions := 0,
           hunks := [{ oldStart := 4, oldLines := 0, newStart := 5, newLines := 1,
                       lines := [{ type := DiffLineType.add, content := "x",
                                   oldLine := some 5, newLine := none }] }] }]
    ∧ formatDiffForReview (parseDiff addedLineParsed)
        = "File: a.ts\nChanges: +1 -0\n\nLines 5-5:\n   5 + x\n" :=
  ⟨rfl, rfl⟩

/-- The line-level action of a successful fix: the splice
`applyFixToContent` performs, on the line list. -/
def applyFixLines (L : List String) (f : FixResult) : List String :=
  jsSplice L (f.startLine - 1) (f.endLine - 1 - (f.startLine - 1) + 1)
    (splitLines f.fixedContent)

/-- Well-formedness of one fix against a file of `n` lines: successful,
1-based, non-empty range inside the file. -/
def FixOk (n : Nat) (f : FixResult) : Prop :=
  f.success = true ∧ 1 ≤ f.startLine ∧ f.startLine ≤ f.endLine ∧ f.endLine ≤ (n : Int)

/-- Joining the split lines restores the string (JavaScript
`s.split('\n').join('\n') === s`). -/
theorem joinLines_splitLines (s : String) : joinLines (splitLines s) = s := by
  simp only [joinLines, splitLines, List.map_map]
  rw [show String.data ∘ String.mk = id from rfl, List.map_id,
    List.intercalate_splitOn]

/-- Pieces produced by `splitOnP` never satisfy the predicate. -/
theorem splitOnP_pieces {α : Type} (p : α → Bool) :
    ∀ (cs : List α), ∀ l ∈ cs.splitOnP p, ∀ x ∈ l, p x = false := by
  intro cs
  induction cs with
  | nil =>
    intro l hl x hx
    rw [List.splitOnP_nil] at hl
    rcases List.mem_singleton.mp hl with rfl
    cases hx
  | cons a cs ih =>
    intro l hl x hx
    rw [List.splitOnP_cons] at hl
    by_cases ha : p a
    · rw [if_pos ha] at hl
      rcases List.mem_cons.mp hl with rfl | hl2
      · cases hx
      · exact ih l hl2 x hx
    · rw [if_neg ha] at hl
      rcases hsp : cs.splitOnP p with _ | ⟨h0, t0⟩
      · exact absurd hsp (List.splitOnP_ne_nil p cs)
      · rw [hsp] at hl
        simp only [List.modifyHead] at hl
        rcases List.mem_cons.mp hl with rfl | hl2
        · rcases List.mem_cons.mp hx with rfl | hx2
          · exact Bool.eq_false_iff.mpr ha
          · exact ih h0 (by rw [hsp]; exact List.mem_cons_self h0 t0) x hx2
        · exact ih l (by rw [hsp]; exact List.mem_cons_of_mem h0 hl2) x hx

/-- Pieces of `splitLines` contain no newline. -/
theorem splitLines_no_newline (s : String) :
    ∀ p ∈ splitLines s, '\n' ∉ p.data := by
  intro p hp hmem
  simp only [splitLines, List.mem_map] at hp
  rcases hp with ⟨l, hl, rfl⟩
  have := splitOnP_pieces (· == '\n') s.data l (by simpa [List.splitOn] using hl) '\n' hmem
  simp at this

/-- `splitLines` never returns the empty list. -/
theorem splitLines_ne_nil (s : String) : splitLines s ≠ [] := by
  simp only [splitLines, List.splitOn]
  intro h
  exact List.splitOnP_ne_nil _ s.data (by simpa using congrArg (List.map String.data) h)

/-- Splitting a joined list of non-empty provenance restores it. -/
theorem splitLines_joinLines (M : List String) (hne : M ≠ [])
    (hnl : ∀ p ∈ M, '\n' ∉ p.data) :
    splitLines (joinLines M) = M := by
  simp only [splitLines, joinLines]
  rw [List.splitOn_intercalate _ '\n'
    (by intro l hl
        rcases List.mem_map.mp hl with ⟨p, hp, rfl⟩
        exact hnl p hp)
    (by simpa using hne)]
  simp only [List.map_map]
  rw [show String.mk ∘ String.data = id from rfl, List.map_id]

/-- One successful fix at the string level is the line-level splice,
re-joined. -/
theorem applyFixToContent_eq_lines (c : String) (f : FixResult) (hs : f.success = true) :
    applyFixToContent c f = joinLines (applyFixLines (splitLines c) f) := by
  simp [applyFixToContent, applyFixLines, hs]

/-- Line-level splices keep every piece newline-free. -/
theorem applyFixLines_no_newline (L : List String) (f : FixResult)
    (hL : ∀ p ∈ L, '\n' ∉ p.data) :
    ∀ p ∈ applyFixLines L f, '\n' ∉ p.data := by
  intro p hp
  simp only [applyFixLines, jsSplice, List.mem_append] at hp
  rcases hp with (h | h) | h
  · exact hL p (List.take_subset _ _ h)
  · exact splitLines_no_newline f.fixedContent p h
  · exact hL p (List.drop_subset _ _ h)

/-- Line-level splices never produce the empty list. -/
theorem applyFixLines_ne_nil (L : List String) (f : FixResult) :
    applyFixLines L f ≠ [] := by
  simp only [applyFixLines, jsSplice]
  intro h
  rcases List.append_eq_nil.mp h with ⟨h1, h2⟩
  rcases List.append_eq_nil.mp h1 with ⟨_, hx⟩
  exact splitLines_ne_nil f.fixedContent hx

/-- The string-level fold is the line-level fold, re-joined. -/
theorem foldl_applyFixToContent_eq_lines (fs : List FixResult) :
    ∀ (c : String), (∀ f ∈ fs, f.success = true) →
    List.foldl applyFixToContent c fs
      = joinLines (List.foldl applyFixLines (splitLines c) fs) := by
  induction fs with
  | nil => intro c _; simp [joinLines_splitLines]
  | cons f fs ih =>
    intro c hsucc
    have hf := hsucc f (List.mem_cons_self f fs)
    have hstep : splitLines (applyFixToContent c f) = applyFixLines (splitLines c) f := by
      rw [applyFixToContent_eq_lines c f hf]
      exact splitLines_joinLines _ (applyFixLines_ne_nil _ _)
        (applyFixLines_no_newline _ _ (splitLines_no_newline c))
    calc List.foldl applyFixToContent c (f :: fs)
        = List.foldl applyFixToContent (applyFixToContent c f) fs := rfl
      _ = joinLines (List.foldl applyFixLines (splitLines (applyFixToContent c f)) fs) :=
          ih _ (fun g hg => hsucc g (List.mem_cons_of_mem f hg))
      _ = joinLines (List.foldl applyFixLines (applyFixLines (splitLines c) f) fs) := by
          rw [hstep]
      _ = joinLines (List.foldl applyFixLines (splitLines c) (f :: fs)) := rfl

/-- Evaluation of the splice under the validated preconditions: the JS
clamps vanish and the splice is a take/append/drop around the 1-based
inclusive range. -/
theorem applyFixLines_eval (L : List String) (f : FixResult)
    (h1 : 1 ≤ f.startLine) (h2 : f.startLine ≤ f.endLine)
    (hlen : f.startLine.toNat - 1 ≤ L.length) :
    applyFixLines L f
      = L.take (f.startLine.toNat - 1) ++ splitLines f.fixedContent
          ++ L.drop f.endLine.toNat := by
  simp only [applyFixLines, jsSplice]
  have hneg : ¬(f.startLine - 1 < 0) := by omega
  rw [if_neg hneg]
  have hmin : min (f.startLine - 1) (L.length : Int) = f.startLine - 1 := by omega
  rw [hmin]
  have hs : (f.startLine - 1).toNat = f.startLine.toNat - 1 := by omega
  have hd : (max (f.endLine - 1 - (f.startLine - 1) + 1) 0).toNat
      = f.endLine.toNat - (f.startLine.toNat - 1) := by omega
  rw [hs, hd]
  have he : f.startLine.toNat - 1 + (f.endLine.toNat - (f.startLine.toNat - 1))
      = f.endLine.toNat := by omega
  rw [he]

/-- A prefix strictly before the first replaced range is untouched by the
simultaneous application. -/
theorem applyFrom_take (L : List String) (rest : List FixResult) (k : Nat)
    (hk : ∀ g, rest.head? = some g →
      k ≤ g.startLine.toNat - 1 ∧ g.startLine.toNat - 1 ≤ L.length) :
    (applyFrom L 0 rest).take k = L.take k := by
  cases rest with
  | nil => simp [applyFrom]
  | cons g r =>
    obtain ⟨hk1, hk2⟩ := hk g rfl
    simp only [applyFrom, List.drop_zero]
    rw [List.append_assoc, List.take_append_eq_append_take]
    have hlt : (L.take (g.startLine.toNat - 1)).length = g.startLine.toNat - 1 := by
      rw [List.length_take]; omega
    rw [hlt, show k - (g.startLine.toNat - 1) = 0 from by omega, List.take_zero,
      List.append_nil, List.take_take, show min k (g.startLine.toNat - 1) = k from by omega]

/-- Dropping up to a point before the first remaining range re-bases the
simultaneous application. -/
theorem applyFrom_drop (L : List String) (rest : List FixResult) (b e' : Nat)
    (hbe : b ≤ e')
    (hk : ∀ g, rest.head? = some g →
      e' ≤ g.startLine.toNat - 1 ∧ g.startLine.toNat - 1 ≤ L.length) :
    (applyFrom L b rest).drop (e' - b) = applyFrom L e' rest := by
  cases rest with
  | nil =>
    simp only [applyFrom, List.drop_drop]
    rw [show b + (e' - b) = e' from by omega]
  | cons g r =>
    obtain ⟨hk1, hk2⟩ := hk g rfl
    simp only [applyFrom]
    rw [List.append_assoc, List.drop_append_eq_append_drop]
    have hlt : ((L.take (g.startLine.toNat - 1)).drop b).length
        = g.startLine.toNat - 1 - b := by
      rw [List.length_drop, List.length_take]; omega
    rw [hlt, List.drop_drop, show b + (e' - b) = e' from by omega,
      show e' - b - (g.startLine.toNat - 1 - b) = 0 from by omega, List.drop_zero,
      List.append_assoc]

/-- In an ascending disjoint chain, the head's range ends before every
later range starts. -/
theorem chain_head_lt_all (rest : List FixResult) :
    ∀ (f : FixResult), (∀ g ∈ rest, g.startLine ≤ g.endLine) →
    List.Chain' (fun a b => a.endLine < b.startLine) (f :: rest) →
    ∀ g ∈ rest, f.endLine < g.startLine := by
  induction rest with
  | nil => intro f _ _ g hg; cases hg
  | cons g r ih =>
    intro f hok hchain x hx
    have hadj : f.endLine < g.startLine := (List.chain'_cons.mp hchain).1
    rcases List.mem_cons.mp hx with rfl | hx2
    · exact hadj
    · have hge := hok g (List.mem_cons_self g r)
      have := ih g (fun y hy => hok y (List.mem_cons_of_mem g hy))
        (List.chain'_cons.mp hchain).2 x hx2
      omega

/-- Core order lemma: folding the line-level splice over the reversed
(descending) order of an ascending disjoint in-bounds family equals the
simultaneous application. -/
theorem foldl_applyFixLines_eq_applyFrom (L : List String) :
    ∀ (asc : List FixResult), (∀ f ∈ asc, FixOk L.length f) →
    List.Chain' (fun a b => a.endLine < b.startLine) asc →
    List.foldl applyFixLines L asc.reverse = applyFrom L 0 asc := by
  intro asc
  induction asc with
  | nil => intro _ _; simp [applyFrom]
  | cons f rest ih =>
    intro hok hchain
    obtain ⟨hsucc, h1, h2, h3⟩ := hok f (List.mem_cons_self f rest)
    have hokr : ∀ g ∈ rest, FixOk L.length g := fun g hg => hok g (List.mem_cons_of_mem f hg)
    have hall : ∀ g ∈ rest, f.endLine < g.startLine :=
      chain_head_lt_all rest f (fun g hg => (hokr g hg).2.2.1) hchain
    have hM := ih hokr hchain.tail
    rw [List.reverse_cons, List.foldl_append, hM]
    simp only [List.foldl_cons, List.foldl_nil]
    have hheadTake : ∀ g, rest.head? = some g →
        f.startLine.toNat - 1 ≤ g.startLine.toNat - 1 ∧ g.startLine.toNat - 1 ≤ L.length := by
      intro g hg
      have hmem := List.mem_of_mem_head? hg
      obtain ⟨_, g1, g2, g3⟩ := hokr g hmem
      have := hall g hmem
      omega
    have hheadDrop : ∀ g, rest.head? = some g →
        f.endLine.toNat ≤ g.startLine.toNat - 1 ∧ g.startLine.toNat - 1 ≤ L.length := by
      intro g hg
      have hmem := List.mem_of_mem_head? hg
      obtain ⟨_, g1, g2, g3⟩ := hokr g hmem
      have := hall g hmem
      omega
    have htake : (applyFrom L 0 rest).take (f.startLine.toNat - 1)
        = L.take (f.startLine.toNat - 1) :=
      applyFrom_take L rest (f.startLine.toNat - 1) hheadTake
    have hlenM : f.startLine.toNat - 1 ≤ (applyFrom L 0 rest).length := by
      have := congrArg List.length htake
      rw [List.length_take, List.length_take] at this
      omega
    rw [applyFixLines_eval (applyFrom L 0 rest) f h1 h2 hlenM]
    have hdrop : (applyFrom L 0 rest).drop f.endLine.toNat = applyFrom L f.endLine.toNat rest := by
      have := applyFrom_drop L rest 0 f.endLine.toNat (by omega) hheadDrop
      simpa using this
    rw [htake, hdrop]
    simp [applyFrom]

/-- Two ascending disjoint chains over the same multiset of well-formed
fixes are equal. -/
theorem asc_chain_perm_eq :
    ∀ (l₁ l₂ : List FixResult), l₁.Perm l₂ →
    (∀ f ∈ l₁, f.startLine ≤ f.endLine) →
    List.Chain' (fun a b => a.endLine < b.startLine) l₁ →
    List.Chain' (fun a b => a.endLine < b.startLine) l₂ →
    l₁ = l₂ := by
  intro l₁
  induction l₁ with
  | nil =>
    intro l₂ hp _ _ _
    exact (List.Perm.eq_nil hp.symm).symm
  | cons a t ih =>
    intro l₂ hp hok hc₁ hc₂
    cases l₂ with
    | nil => exact absurd (List.Perm.eq_nil hp) (List.cons_ne_nil a t)
    | cons b t₂ =>
      have hab : a = b := by
        by_contra hne
        have haIn : a ∈ b :: t₂ := hp.mem_iff.mp (List.mem_cons_self a t)
        have hbIn : b ∈ a :: t := hp.mem_iff.mpr (List.mem_cons_self b t₂)
        have ha2 : a ∈ t₂ := by
          rcases List.mem_cons.mp haIn with h | h
          · exact absurd h hne
          · exact h
        have hb2 : b ∈ t := by
          rcases List.mem_cons.mp hbIn with h | h
          · exact absurd h.symm hne
          · exact h
        have hok₂ : ∀ f ∈ b :: t₂, f.startLine ≤ f.endLine :=
          fun f hf => hok f (hp.mem_iff.mpr hf)
        have hba : b.endLine < a.startLine :=
          chain_head_lt_all t₂ b (fun g hg => hok₂ g (List.mem_cons_of_mem b hg)) hc₂ a ha2
        have hab2 : a.endLine < b.startLine :=
          chain_head_lt_all t a (fun g hg => hok g (List.mem_cons_of_mem a hg)) hc₁ b hb2
        have h1 := hok a (List.mem_cons_self a t)
        have h2 := hok b hbIn
        omega
      subst hab
      rw [ih t₂ hp.cons_inv (fun f hf => hok f (List.mem_cons_of_mem a hf))
        hc₁.tail hc₂.tail]

/-- The issue sort of `fixCommand` is a permutation sorted into
descending line order. -/
theorem sortIssuesDesc_spec (issues : List ReviewResult) :
    (sortIssuesDesc issues).Perm issues
    ∧ (sortIssuesDesc issues).Pairwise (fun a b => b.line ≤ a.line) := by
  constructor
  · exact List.mergeSort_perm issues _
  · have h := @List.sorted_mergeSort ReviewResult
      (fun (a b : ReviewResult) => decide (b.line ≤ a.line))
      (fun a b c hab hbc => by
        simp only [decide_eq_true_eq] at *
        omega)
      (fun a b => by
        simp only [Bool.or_eq_true, decide_eq_true_eq]
        omega)
      issues
    exact h.imp (fun hab => by simpa using hab)

/-- Claim C6: `fixCommand` processes a file's issues sorted by line
number descending (a stable permutation sorted descending), and for every
family of successful, in-bounds, pairwise non-overlapping fix results
applied in descending-line order via `applyFixToContent`, the final
content equals the simultaneous application of all replacements to the
original lines (`applyFrom`, the order-independent specification); in
particular any two descending arrangements of the same fixes agree. -/
theorem claimC6_descending_order_independent :
    (∀ issues : List ReviewResult,
        (sortIssuesDesc issues).Perm issues
        ∧ (sortIssuesDesc issues).Pairwise (fun a b => b.line ≤ a.line))
    ∧ (∀ (content : String) (desc : List FixResult),
        (∀ f ∈ desc, FixOk (splitLines content).length f) →
        List.Chain' (fun f g => g.endLine < f.startLine) desc →
        (List.foldl applyFixToContent content desc
          = joinLines (applyFrom (splitLines content) 0 desc.reverse)
        ∧ ∀ desc₂ : List FixResult, desc₂.Perm desc →
            List.Chain' (fun f g => g.endLine < f.startLine) desc₂ →
            List.foldl applyFixToContent content desc₂
              = List.foldl applyFixToContent content desc)) := by
  refine ⟨sortIssuesDesc_spec, ?_⟩
  intro content desc hok hchain
  have hasc : List.Chain' (fun a b => a.endLine < b.startLine) desc.reverse := by
    rw [List.chain'_reverse]
    exact hchain
  have hmain : List.foldl applyFixToContent content desc
      = joinLines (applyFrom (splitLines content) 0 desc.reverse) := by
    rw [foldl_applyFixToContent_eq_lines desc content (fun f hf => (hok f hf).1)]
    congr 1
    have h := foldl_applyFixLines_eq_applyFrom (splitLines content) desc.reverse
      (fun f hf => hok f (List.mem_reverse.mp hf)) hasc
    rw [List.reverse_reverse] at h
    exact h
  refine ⟨hmain, ?_⟩
  intro desc₂ hperm hchain₂
  have hasc₂ : List.Chain' (fun a b => a.endLine < b.startLine) desc₂.reverse := by
    rw [List.chain'_reverse]
    exact hchain₂
  have heq : desc₂ = desc := by
    have hp2 : desc₂.reverse.Perm desc.reverse :=
      ((List.reverse_perm desc₂).trans hperm).trans (List.reverse_perm desc).symm
    have h := asc_chain_perm_eq desc₂.reverse desc.reverse hp2
      (fun f hf => (hok f (hperm.mem_iff.mp (List.mem_reverse.mp hf))).2.2.1)
      hasc₂ hasc
    exact List.reverse_injective h
  rw [heq]

/-- Issues for the C6 witness. -/
def issueA : ReviewResult := ⟨"f.ts", 1, 1, "r-1", "m1", SeverityLevel.warning⟩

/-- Second issue for the C6 witness. -/
def issueB : ReviewResult := ⟨"f.ts", 3, 1, "r-1", "m2", SeverityLevel.warning⟩

/-- The higher-range fix of the C6 witness: replaces lines 3-4. -/
def fHigh : FixResult := ⟨true, "replace cd", 3, 4, "c\nd", "Y", "reason text", 100, "change"⟩

/-- The lower-range fix of the C6 witness: replaces line 1. -/
def fLow : FixResult := ⟨true, "replace a", 1, 1, "a", "X", "reason text", 100, "change"⟩

/-- Witness for C6 at a concrete two-fix descending application. -/
theorem claimC6_descending_order_independent_witness :
    ((sortIssuesDesc [issueA, issueB]).Perm [issueA, issueB]
      ∧ (sortIssuesDesc [issueA, issueB]).Pairwise (fun a b => b.line ≤ a.line))
    ∧ List.foldl applyFixToContent "a\nb\nc\nd" [fHigh, fLow]
        = joinLines (applyFrom (splitLines "a\nb\nc\nd") 0 [fHigh, fLow].reverse)
    ∧ List.foldl applyFixToContent "a\nb\nc\nd" [fHigh, fLow] = "X\nb\nY" :=
  ⟨claimC6_descending_order_independent.1 [issueA, issueB],
   (claimC6_descending_order_independent.2 "a\nb\nc\nd" [fHigh, fLow]
      (by
        intro f hf
        have hn : (splitLines "a\nb\nc\nd").length = 4 := rfl
        rw [hn]
        rcases List.mem_cons.mp hf with rfl | hf
        · exact ⟨rfl, by decide, by decide, by decide⟩
        · rcases List.mem_cons.mp hf with rfl | hf
          · exact ⟨rfl, by decide, by decide, by decide⟩
          · cases hf)
      (by
        refine List.chain'_cons.mpr ⟨?_, List.chain'_singleton _⟩
        decide)).1,
   rfl⟩
